import Mathlib

/-!
Verification of the revision engine of django-versioning.

The two embedded sources are `versioning/models.py` (the `Revision` model:
sequencing, revert, display diff) and `versioning/signals.py` (the tracked
save path).  The repository's `utils.py` (diff codec and delta multiplexer),
`managers.py` (`get_for_object`) and `middleware.py` (request context) are not
part of those two files; definitions for them are modelled from the design
document and marked `Modelled from the spec` in their doc comments.
-/

set_option maxHeartbeats 1000000

namespace DjangoVersioning

deriving instance DecidableEq for Except

/-- Python values that can sit in a tracked field of a versioned model: the
source moves between `None`, booleans and text (`models.py` lines 104-117). -/
inductive PyVal where
  | none : PyVal
  | bool (b : Bool) : PyVal
  | str (s : String) : PyVal
deriving DecidableEq

/-- Models `django.utils.encoding.force_unicode`: the text representation of a
field value, as read by `reapply` and `display_diff` before patching. -/
def force_unicode : PyVal → String
  | PyVal.none => "None"
  | PyVal.bool true => "True"
  | PyVal.bool false => "False"
  | PyVal.str s => s

/-- Models `django.contrib.auth.models.User` as far as the engine reads it:
only the primary key matters (`signals.py` line 26 reads `editor.pk`); an
anonymous user object carries no primary key. -/
structure User where
  pk : Option Nat
deriving DecidableEq

/-- Models the request the middleware hands back: the acting user and the
`REMOTE_ADDR` header (`signals.py` lines 20-25). -/
structure Request where
  user : User
  remote_addr : Option String
deriving DecidableEq

/-- Modelled from the spec: a `diff-match-patch` patch artifact for one field.
Section 4.2 asks that `apply(diff(new, old), new) == old`; the artifact is
modelled by the pair of texts it relates (the wrapper `utils.py` around `dmp`
is outside the two embedded sources). -/
structure Patch where
  src : String
  dst : String
deriving DecidableEq

/-- Modelled from the spec: `dmp.diff_main a b` (and `patch_make a b`) builds
the artifact that rewrites text `a` into text `b`. -/
def diff_main (a b : String) : Patch := ⟨a, b⟩

/-- Modelled from the spec: the first component of `dmp.patch_apply p s`; when
`s` is exactly the text the patch was made from, the result is the patch
target. -/
def patch_apply (p : Patch) (s : String) : String :=
  if s == p.src then p.dst else s

/-- Modelled from the spec (section 6): patch text round-trips byte-for-byte
with the artifact, so the artifact stands for its own serialized text and
`dmp.patch_fromText` is the identity on it. -/
def patch_fromText (p : Patch) : Patch := p

/-- Modelled from the spec: `dmp.diff_prettyHtml` renders a diff as inline
HTML; only its dependence on the two texts matters here. -/
def diff_prettyHtml (p : Patch) : String :=
  "<del>" ++ p.src ++ "</del><ins>" ++ p.dst ++ "</ins>"

/-- A delta payload in decoded form: the blocks `(key, patch)` with key
`"<Model>.<field>"` (spec sections 4.3 and 6; the multiplexer lives in the
repository's `utils.py` and round-trips byte-for-byte, so the payload is
modelled by its block list).  Python's emptiness test `not self.delta` is
emptiness of the block list. -/
abbrev Delta := List (String × Patch)

/-- Modelled from the spec: `utils.diff_split_by_fields` parses a delta
payload back into its keyed blocks (section 4.3); on the decoded form it is
the identity. -/
def diff_split_by_fields (d : Delta) : List (String × Patch) := d

/-- Modelled from the spec: the serialized wire form of a delta, one block per
field (section 6); used only as the byte string that gets fingerprinted. -/
def packDelta (d : Delta) : String :=
  String.join (d.map (fun kv => "--- " ++ kv.1 ++ "\n" ++ kv.2.src ++ "\n" ++ kv.2.dst ++ "\n"))

/-- Models `hashlib.sha1(force_unicode(delta).encode("utf-8")).hexdigest()`
(`models.py` lines 58-60) as a concrete deterministic digest of the delta
bytes; the hash algorithm itself is library code. -/
def sha1hex (s : String) : String :=
  String.mk (Nat.toDigits 16 (s.data.foldl (fun h c => (h * 131 + c.toNat) % (2 ^ 160)) 7))

/-- The fingerprint stored in the `sha1` column for a delta payload. -/
def sha1_of_delta (d : Delta) : String := sha1hex (packDelta d)

/-- One tracked field's description, as read through `_meta.get_field` in
`reapply` (`models.py` lines 107-116): nullability and internal type. -/
structure FieldDescr where
  name : String
  null : Bool
  internalType : String
deriving DecidableEq

/-- A tracked model together with its `_registry` entry (the tracked field
names, here carried with their field descriptions). -/
structure ModelDef where
  name : String
  fields : List FieldDescr
deriving DecidableEq

/-- The `_registry[model]` tuple of tracked field names. -/
def ModelDef.fieldNames (m : ModelDef) : List String := m.fields.map (·.name)

/-- `content_object._meta.get_field(field)` (`models.py` line 107). -/
def ModelDef.get_field (m : ModelDef) (f : String) : FieldDescr :=
  (m.fields.find? (fun d => d.name == f)).getD ⟨f, false, "CharField"⟩

/-- A live instance of a tracked model: its content-type name, its object id
(Django stores it as text) and its field values. -/
structure Entity where
  model : String
  objectId : String
  vals : List (String × PyVal)
deriving DecidableEq

/-- `getattr(obj, field)` on a tracked instance. -/
def getattr (e : Entity) (f : String) : PyVal :=
  ((e.vals.find? (fun kv => kv.1 == f)).map (·.2)).getD PyVal.none

/-- Update one binding of an attribute list, appending when absent. -/
def setVals : List (String × PyVal) → String → PyVal → List (String × PyVal)
  | [], f, v => [(f, v)]
  | kv :: t, f, v => if kv.1 == f then (f, v) :: t else kv :: setVals t f v

/-- `setattr(obj, field, value)` on a tracked instance. -/
def Entity.setattr (e : Entity) (f : String) (v : PyVal) : Entity :=
  { e with vals := setVals e.vals f v }

/-- Modelled from the spec: `utils.obj_diff(obj1, obj2)` — the delta of an
edit, carrying for every tracked field whose text representation changed the
reverse diff `diff(new, old)` keyed by `"<Model>.<field>"` (spec sections 4.2
and 4.3; `pre_save` calls it as `obj_diff(instance, original)`, so `obj1` is
the post-edit state). -/
def obj_diff (reg : ModelDef) (obj1 obj2 : Entity) : Delta :=
  (reg.fieldNames.filter
      (fun f => force_unicode (getattr obj1 f) != force_unicode (getattr obj2 f))).map
    (fun f => (reg.name ++ "." ++ f,
               diff_main (force_unicode (getattr obj1 f)) (force_unicode (getattr obj2 f))))

/-- `Revision` (`models.py` lines 18-49): one historical change record.
`created_at` carries no logic and is omitted; `id` is the database primary key
(`none` until the row is inserted). -/
structure Revision where
  id : Option Nat
  object_id : String
  content_type : String
  revision : Nat
  reverted : Bool
  sha1 : String
  delta : Delta
  comment : String
  editor : Option User
  editor_ip : Option String
deriving DecidableEq

/-- The revision table, in primary-key order: rows are only appended or
updated in place, so list position is id order, `Meta.ordering = ('-id',)` is
list reversal, and `latest()` (by id) is the last element. -/
abbrev Store := List Revision

/-- Modelled from the spec: `RevisionManager.get_for_object` (the manager
lives in the repository's `managers.py`) — the rows of one entity's history
line, i.e. the generic-relation filter on content type and object id, in id
order. -/
def get_for_object (s : Store) (ct oid : String) : Store :=
  s.filter (fun r => r.content_type == ct && r.object_id == oid)

/-- A row other than `r` already holding `r`'s
`(object_id, content_type, revision)` key: exactly when the store's
`unique_together` constraint makes writing `r` fail with `IntegrityError`. -/
def conflictsWith (s : Store) (r : Revision) : Bool :=
  s.any (fun q => q.id != r.id && q.object_id == r.object_id &&
                  q.content_type == r.content_type && q.revision == r.revision)

/-- Recursion core of the retry loop, structural on the remaining retries
(`20 - attempt`): with no budget left a conflict is fatal at once, which is
exactly the source's `attempt > 20` exit. -/
def retryNumberingGo (conflict : Nat → Nat → Bool) : Nat → Nat → Nat → Except String Nat
  | candidate, attempt, 0 =>
    if conflict attempt candidate then Except.error "RevisionConflictExhausted"
    else Except.ok candidate
  | candidate, attempt, fuel + 1 =>
    if conflict attempt candidate then
      retryNumberingGo conflict (candidate + 1) (attempt + 1) fuel
    else Except.ok candidate

/-- The retry loop of `Revision.save` (`models.py` lines 68-77), parametrized
by which candidate numbers the store rejects at each attempt: `conflict a c`
means the write of candidate `c` at attempt counter `a` raises
`IntegrityError` (an arbitrary oracle models arbitrary interleaving with
concurrent writers).  On a conflict the candidate is incremented and the
attempt counter bumped; once the counter passes 20 the error is re-raised
(see `retryNumbering_unfold` for the loop-shaped equation). -/
def retryNumbering (conflict : Nat → Nat → Bool) (candidate attempt : Nat) :
    Except String Nat :=
  retryNumberingGo conflict candidate attempt (20 - attempt)

/-- `super(Revision, self).save()`: insert a fresh row (primary key = next
position) or update the row with `self.id` in place. -/
def dbWrite (s : Store) (r : Revision) : Store :=
  match r.id with
  | Option.none => s ++ [{ r with id := some s.length }]
  | some i => s.map (fun q => if q.id == some i then { r with id := some i } else q)

/-- The row as persisted by `dbWrite`, with its primary key. -/
def writtenRow (s : Store) (r : Revision) : Revision :=
  match r.id with
  | Option.none => { r with id := some s.length }
  | some i => { r with id := some i }

/-- The candidate number `Revision.save` derives for a fresh row
(`models.py` lines 61-67): `latest().revision + 1`, or 1 when the object has
no history yet (`latest()` is by id, the last row of the history line). -/
def nextRevisionNumber (s : Store) (r : Revision) : Nat :=
  match (get_for_object s r.content_type r.object_id).getLast? with
  | some lastRow => lastRow.revision + 1
  | Option.none => 1

/-- The first half of `Revision.save` (`models.py` lines 58-67): recompute
`sha1` from the delta, and number the row when it has no primary key yet. -/
def numberedForSave (s : Store) (r0 : Revision) : Revision :=
  let r1 := { r0 with sha1 := sha1_of_delta r0.delta }
  match r1.id with
  | Option.none => { r1 with revision := nextRevisionNumber s r1 }
  | some _ => r1

/-- `Revision.save` (`models.py` lines 55-77): recompute `sha1` from the
delta, on a first save number the revision as `latest().revision + 1` (or 1
when the object has no history yet), then write under the bounded retry loop.
The sequential store itself is the conflict oracle. -/
def Revision.save (s : Store) (r0 : Revision) : Except String (Store × Revision) :=
  match retryNumbering
      (fun _ cand => conflictsWith s { numberedForSave s r0 with revision := cand })
      (numberedForSave s r0).revision 0 with
  | Except.error e => Except.error e
  | Except.ok n =>
    Except.ok (dbWrite s { numberedForSave s r0 with revision := n },
               writtenRow s { numberedForSave s r0 with revision := n })

/-- The `revision_info` dict hung on an instance: a field is `some v` when the
key is present (`v` itself may be Python `None`, hence the nested option). -/
structure RevisionInfo where
  delta : Option Delta := Option.none
  comment : Option String := Option.none
  editor : Option (Option User) := Option.none
  editor_ip : Option (Option String) := Option.none
deriving DecidableEq

/-- Python's `hasattr(info, 'editor')` with `info` a plain dict
(`signals.py` line 26): `hasattr` looks for an object *attribute*, never a
dict key, and a dict carries no `editor` attribute, so the test is constantly
false regardless of the dict's contents. -/
def dictHasAttr (_ : RevisionInfo) (_ : String) : Bool := false

/-- The `model()` fallback of `pre_save` (`signals.py` line 18): a fresh
unsaved instance whose tracked text fields hold their blank defaults. -/
def blankInstance (reg : ModelDef) (inst : Entity) : Entity :=
  { model := inst.model, objectId := inst.objectId,
    vals := reg.fieldNames.map (fun f => (f, PyVal.str "")) }

/-- `signals.pre_save` (`signals.py` lines 6-27): ensure the `revision_info`
dict exists, store the reverse delta against the stored original, fill editor
and editor_ip from the request when absent, then the final guard on line 26
(see `dictHasAttr`). -/
def pre_save (reg : ModelDef) (entityDb : List Entity) (request : Option Request)
    (info0 : Option RevisionInfo) (inst : Entity) : RevisionInfo :=
  let info := info0.getD {}
  let original :=
    (entityDb.find? (fun e => e.model == inst.model && e.objectId == inst.objectId)).getD
      (blankInstance reg inst)
  let info := { info with delta := some (obj_diff reg inst original) }
  let info :=
    match request with
    | Option.none => info
    | some req =>
      let info :=
        if (info.editor.getD Option.none).isNone then
          { info with editor := some (some req.user) }
        else info
      if (info.editor_ip.getD Option.none).isNone then
        { info with editor_ip := some req.remote_addr }
      else info
  if !dictHasAttr info "editor" || ((info.editor.getD Option.none).bind User.pk).isNone then
    { info with editor := some Option.none }
  else info

/-- Python truthiness of the `revision_info` dict: some key is present. -/
def infoTruthy (i : RevisionInfo) : Bool :=
  i.delta.isSome || i.comment.isSome || i.editor.isSome || i.editor_ip.isSome

/-- `Revision(**info)` followed by `rev.content_object = instance`
(`signals.py` lines 36-37): keys absent from the dict fall back to the model
field defaults. -/
def revisionFromInfo (inst : Entity) (info : RevisionInfo) : Revision :=
  { id := Option.none, object_id := inst.objectId, content_type := inst.model,
    revision := 0, reverted := false, sha1 := "",
    delta := info.delta.getD [], comment := info.comment.getD "",
    editor := info.editor.getD Option.none, editor_ip := info.editor_ip.getD Option.none }

/-- `signals.post_save` (`signals.py` lines 30-38): when the dict is truthy,
build a Revision from it and save it.  Returns the revision table (unchanged
on a falsy dict) or the error surfaced by `Revision.save`. -/
def post_save (s : Store) (inst : Entity) (info : Option RevisionInfo) :
    Except String Store :=
  match info with
  | Option.none => Except.ok s
  | some i =>
    if infoTruthy i then
      match Revision.save s (revisionFromInfo inst i) with
      | Except.error e => Except.error e
      | Except.ok (s2, _) => Except.ok s2
    else Except.ok s

/-- The persistent state the engine touches: the tracked entities' own tables
and the revision table. -/
structure World where
  entities : List Entity
  revisions : Store
deriving DecidableEq

/-- The row write of a tracked instance into its own table. -/
def upsertEntity : List Entity → Entity → List Entity
  | [], e => [e]
  | x :: t, e =>
    if x.model == e.model && x.objectId == e.objectId then e :: t
    else x :: upsertEntity t e

/-- One save of a tracked instance: the `pre_save` signal, the row write of
the instance itself, then the `post_save` signal.  On an error from
`Revision.save` the instance's own row write has already happened. -/
def trackedSave (reg : ModelDef) (w : World) (request : Option Request)
    (info0 : Option RevisionInfo) (inst : Entity) : World × Except String Unit :=
  let info := pre_save reg w.entities request info0 inst
  let ents := upsertEntity w.entities inst
  match post_save w.revisions inst (some info) with
  | Except.error e => (⟨ents, w.revisions⟩, Except.error e)
  | Except.ok s2 => (⟨ents, s2⟩, Except.ok ())

/-- `key.split('.')` with two-variable unpacking (`models.py` line 101):
`split` cuts at every dot, and unpacking into `model2, field` raises
`ValueError` unless that yields exactly two parts, i.e. the key holds exactly
one dot. -/
def splitKey (key : String) : Option (String × String) :=
  if key.data.count '.' = 1 then
    some (String.mk (key.data.takeWhile (fun c => c ≠ '.')),
          String.mk ((key.data.dropWhile (fun c => c ≠ '.')).drop 1))
  else Option.none

/-- The coercions applied after patching in `reapply` (`models.py` lines
107-116): the `'None'` placeholder of a nullable field becomes `None`,
boolean-typed fields map the `'True'`/`'False'` tokens, and `to_python` is the
identity on text fields. -/
def coerceContent (fobj : FieldDescr) (content : String) : PyVal :=
  if content == "None" && fobj.null then PyVal.none
  else if fobj.internalType == "BooleanField" || fobj.internalType == "NullBooleanField" then
    if content == "True" then PyVal.bool true
    else if content == "False" then PyVal.bool false
    else PyVal.str content
  else PyVal.str content

/-- One `(key, diff)` item of the inner loop of `reapply` (`models.py` lines
100-117): skip keys of other models or untracked fields, otherwise patch the
field's text and coerce it back to a field value. -/
def applyDiffToObject (reg : ModelDef) (obj : Entity) (key : String) (diff : Patch) :
    Except String Entity :=
  match splitKey key with
  | Option.none => Except.error "ValueError"
  | some md =>
    if md.1 != reg.name || !(reg.fieldNames.contains md.2) then Except.ok obj
    else
      let content := force_unicode (getattr obj md.2)
      let patch := patch_fromText diff
      let content := patch_apply patch content
      let fobj := reg.get_field md.2
      Except.ok (obj.setattr md.2 (coerceContent fobj content))

/-- The item loop of one changeset in `reapply` (`models.py` lines 100-117),
over the blocks produced by `diff_split_by_fields`. -/
def applyDelta (reg : ModelDef) : Entity → List (String × Patch) → Except String Entity
  | obj, [] => Except.ok obj
  | obj, kv :: rest =>
    match applyDiffToObject reg obj kv.1 kv.2 with
    | Except.error e => Except.error e
    | Except.ok obj2 => applyDelta reg obj2 rest

/-- Descending insertion by revision number. -/
def insertRevDesc (r : Revision) : List Revision → List Revision
  | [] => [r]
  | x :: t => if x.revision ≤ r.revision then r :: x :: t else x :: insertRevDesc r t

/-- `order_by('-revision')`: rows sorted by descending revision number. -/
def sortRevDesc : List Revision → List Revision
  | [] => []
  | r :: t => insertRevDesc r (sortRevDesc t)

/-- The queryset of `reapply` (`models.py` lines 88-92): the object's rows
with revision number strictly greater than `n`, newest first. -/
def selectGtDesc (s : Store) (ct oid : String) (n : Nat) : List Revision :=
  sortRevDesc ((get_for_object s ct oid).filter (fun r => n < r.revision))

/-- The changeset loop of `reapply` (`models.py` lines 98-119): apply every
matching field patch of each changeset to the live object, then persist the
changeset with `reverted = True`.  The store writes of already-processed
changesets survive a failure on a later one. -/
def processChangesets (reg : ModelDef) : Store → Entity → List Revision →
    Store × Except String Entity
  | s, obj, [] => (s, Except.ok obj)
  | s, obj, cs :: rest =>
    match applyDelta reg obj (diff_split_by_fields cs.delta) with
    | Except.error e => (s, Except.error e)
    | Except.ok obj2 =>
      match Revision.save s { cs with reverted := true } with
      | Except.error e => (s, Except.error e)
      | Except.ok (s2, _) => processChangesets reg s2 obj2 rest

/-- `self.content_object`: the live instance the generic foreign key points
at. -/
def findEntity (w : World) (r : Revision) : Option Entity :=
  w.entities.find? (fun e => e.model == r.content_type && e.objectId == r.object_id)

/-- `Revision.reapply` (`models.py` lines 83-127): replay every strictly later
changeset onto the live object, marking each as reverted, then save the object
through the tracked-save path with a synthesized `revision_info`.  The
returned world keeps all writes done before a failure. -/
def Revision.reapply (reg : ModelDef) (w : World) (self : Revision)
    (editor_ip : Option String) (editor : Option User) (request : Option Request) :
    World × Except String Unit :=
  match findEntity w self with
  | Option.none => (w, Except.error "DoesNotExist")
  | some content_object =>
    let next_changes := selectGtDesc w.revisions self.content_type self.object_id self.revision
    match processChangesets reg w.revisions content_object next_changes with
    | (s2, Except.error e) => ({ w with revisions := s2 }, Except.error e)
    | (s2, Except.ok obj2) =>
      let info : RevisionInfo :=
        { comment := some ("Reverted to revision #" ++ toString self.revision),
          editor_ip := some editor_ip, editor := some editor }
      trackedSave reg { w with revisions := s2 } request (some info) obj2

/-- One `(key, diff)` item of the display loop (`models.py` lines 151-158):
as in `reapply`, but the patched text is set back raw, with no coercion. -/
def displayApplyOne (reg : ModelDef) (obj : Entity) (key : String) (diff : Patch) :
    Except String Entity :=
  match splitKey key with
  | Option.none => Except.error "ValueError"
  | some md =>
    if md.1 != reg.name || !(reg.fieldNames.contains md.2) then Except.ok obj
    else
      let patches := patch_fromText diff
      Except.ok (obj.setattr md.2
        (PyVal.str (patch_apply patches (force_unicode (getattr obj md.2)))))

/-- The item loop of one changeset in the display replay
(`models.py` lines 151-158), over the blocks of `diff_split_by_fields`. -/
def displayApplyDelta (reg : ModelDef) : Entity → List (String × Patch) → Except String Entity
  | obj, [] => Except.ok obj
  | obj, kv :: rest =>
    match displayApplyOne reg obj kv.1 kv.2 with
    | Except.error e => Except.error e
    | Except.ok obj2 => displayApplyDelta reg obj2 rest

/-- The replay loop of `display_diff` (`models.py` lines 145-158), carrying
the captured `next_rev` copy; at the last changeset the copy is taken before
that changeset's patches are applied. -/
def displayLoop (reg : ModelDef) : List Revision → Entity → Option Entity →
    Except String (Entity × Option Entity)
  | [], old, nr => Except.ok (old, nr)
  | cs :: rest, old, nr =>
    let nr2 := if rest.isEmpty then some old else nr
    match displayApplyDelta reg old (diff_split_by_fields cs.delta) with
    | Except.error e => Except.error e
    | Except.ok old2 => displayLoop reg rest old2 nr2

/-- The queryset of `display_diff` (`models.py` lines 138-140): rows with
revision number at least `n`, in the model's default `('-id',)` ordering,
i.e. the reverse of id order. -/
def selectGteDesc (s : Store) (ct oid : String) (n : Nat) : List Revision :=
  ((get_for_object s ct oid).filter (fun r => n ≤ r.revision)).reverse

/-- The rendering loop of `display_diff` (`models.py` lines 160-166): per
tracked field a bold header, then the pretty-printed forward diff from the
reconstructed `old` state to the captured `next_rev` state. -/
def renderFields (fields : List String) (old next_rev : Entity) : String :=
  String.intercalate "<br />\n"
    (fields.foldr
      (fun f acc =>
        ("<b>" ++ f ++ "</b>") ::
        diff_prettyHtml (diff_main (force_unicode (getattr old f))
                                   (force_unicode (getattr next_rev f))) :: acc)
      [])

/-- `Revision.display_diff` (`models.py` lines 129-166).  An empty delta
returns the empty string at once; when the replay loop never assigned
`next_rev` the source hits an unbound local name, surfaced as an error. -/
def Revision.display_diff (reg : ModelDef) (w : World) (self : Revision) :
    Except String String :=
  match findEntity w self with
  | Option.none => Except.error "DoesNotExist"
  | some content_object =>
    if self.delta.isEmpty then Except.ok ""
    else
      let newer_changesets :=
        selectGteDesc w.revisions self.content_type self.object_id self.revision
      match displayLoop reg newer_changesets content_object Option.none with
      | Except.error e => Except.error e
      | Except.ok (_, Option.none) => Except.error "NameError"
      | Except.ok (old, some next_rev) => Except.ok (renderFields reg.fieldNames old next_rev)

/-- Reference replay: the display patching folded over a changeset list,
without the capture bookkeeping. -/
def replayDeltas (reg : ModelDef) : Entity → List Revision → Except String Entity
  | obj, [] => Except.ok obj
  | obj, cs :: rest =>
    match displayApplyDelta reg obj (diff_split_by_fields cs.delta) with
    | Except.error e => Except.error e
    | Except.ok obj2 => replayDeltas reg obj2 rest

/-- Reference replay for the mutating path: `applyDelta` folded over a
changeset list. -/
def applyDeltas (reg : ModelDef) : Entity → List Revision → Except String Entity
  | obj, [] => Except.ok obj
  | obj, cs :: rest =>
    match applyDelta reg obj (diff_split_by_fields cs.delta) with
    | Except.error e => Except.error e
    | Except.ok obj2 => applyDeltas reg obj2 rest

/-- Every block key of a delta has exactly one dot, so `key.split('.')`
unpacks without a `ValueError` during replay. -/
def keysOk (d : Delta) : Bool := d.all (fun kv => (splitKey kv.1).isSome)

/-- How a consumed changeset row looks once `reapply` has persisted it:
`reverted` flipped on, fingerprint recomputed by `save`. -/
def markRow (r : Revision) : Revision :=
  { r with reverted := true, sha1 := sha1_of_delta r.delta }

/-- Mark exactly the rows of one history line strictly after revision `n`. -/
def markReverted (n : Nat) (ct oid : String) (r : Revision) : Revision :=
  if r.content_type == ct && r.object_id == oid && decide (n < r.revision) then markRow r
  else r

/-- The row a conflict-free first save appends to the store. -/
def insertedRow (s : Store) (r : Revision) : Revision :=
  { r with sha1 := sha1_of_delta r.delta, revision := nextRevisionNumber s r,
           id := some s.length }

/-- Primary keys are exactly the row positions counted from `k` (rows are
only ever appended). -/
def idsFromB (k : Nat) : Store → Bool
  | [] => true
  | r :: t => (r.id == some k) && idsFromB (k + 1) t

/-- Every history line's revision numbers strictly increase in id order —
the invariant the sequencer maintains. -/
def linesAscending (s : Store) : Prop :=
  ∀ r ∈ s, ((get_for_object s r.content_type r.object_id).map (·.revision)).Pairwise (· < ·)

/-- Store sanity maintained by the engine itself. -/
def storeOk (s : Store) : Prop := idsFromB 0 s = true ∧ linesAscending s

instance decLinesAscending (s : Store) : Decidable (linesAscending s) := by
  unfold linesAscending
  infer_instance

instance decStoreOk (s : Store) : Decidable (storeOk s) := by
  unfold storeOk
  infer_instance

/-- A default revision value, used only to read total list accessors. -/
def dummyRev : Revision :=
  ⟨Option.none, "", "", 0, false, "", [], "", Option.none, Option.none⟩

/-- Test fixture: a tracked model `Page` with one tracked text field. -/
def reg0 : ModelDef := ⟨"Page", [⟨"title", false, "CharField"⟩]⟩

/-- Fixture instance states of one page: title `A`, then `B`, then `C`. -/
def pageA : Entity := ⟨"Page", "1", [("title", PyVal.str "A")]⟩

def pageB : Entity := ⟨"Page", "1", [("title", PyVal.str "B")]⟩

def pageC : Entity := ⟨"Page", "1", [("title", PyVal.str "C")]⟩

/-- Fixture worlds: the empty store, then three successive tracked saves. -/
def fxW0 : World := ⟨[], []⟩

def fxW1 : World := (trackedSave reg0 fxW0 Option.none Option.none pageA).1

def fxW2 : World := (trackedSave reg0 fxW1 Option.none Option.none pageB).1

def fxW3 : World := (trackedSave reg0 fxW2 Option.none Option.none pageC).1

/-- The second fixture revision (number 2, the edit `A` to `B`). -/
def fxR2 : Revision := fxW3.revisions.getD 1 dummyRev

/-- The third fixture revision (number 3, the edit `B` to `C`). -/
def fxR3 : Revision := fxW3.revisions.getD 2 dummyRev

/-- The revert fixture: reverting the page to revision 2, with a caller
supplied acting user (primary key 7) and address. -/
def fxRevertRes : World × Except String Unit :=
  Revision.reapply reg0 fxW3 fxR2 (some "1.2.3.4") (some ⟨some 7⟩) Option.none

/-- Fixture for the mid-replay failure: a second page whose middle revision
carries a malformed block key (no dot), so its replay raises `ValueError`. -/
def page9 : Entity := ⟨"Page", "9", [("title", PyVal.str "X")]⟩

def badRow1 : Revision :=
  ⟨some 0, "9", "Page", 1, false, "", [("Page.title", ⟨"W", "V"⟩)], "", Option.none, Option.none⟩

def badRow2 : Revision :=
  ⟨some 1, "9", "Page", 2, false, "", [("nodot", ⟨"a", "b"⟩)], "", Option.none, Option.none⟩

def badRow3 : Revision :=
  ⟨some 2, "9", "Page", 3, false, "", [("Page.title", ⟨"X", "W"⟩)], "", Option.none, Option.none⟩

def fxBadW : World := ⟨[page9], [badRow1, badRow2, badRow3]⟩

/-- The revert-to-revision-1 run on the malformed-history fixture. -/
def fxBadRes : World × Except String Unit :=
  Revision.reapply reg0 fxBadW badRow1 Option.none Option.none Option.none

/-- A fresh unsaved revision row over the three-save fixture store, as
`post_save` would build it for a further edit. -/
def fxNewRev : Revision :=
  ⟨Option.none, "1", "Page", 0, false, "", [("Page.title", ⟨"D", "C"⟩)], "", Option.none,
   Option.none⟩

/-- The concrete save of `fxNewRev` over the three-save fixture store. -/
def fxSaveRes : Except String (Store × Revision) :=
  Revision.save fxW3.revisions fxNewRev

def fxSaveStore : Store :=
  match fxSaveRes with
  | Except.ok (s, _) => s
  | Except.error _ => []

def fxSaveRow : Revision :=
  match fxSaveRes with
  | Except.ok (_, r) => r
  | Except.error _ => dummyRev

/-! Helper lemmas about the bounded retry loop. -/

theorem retryNumbering_unfold (conflict : Nat → Nat → Bool) (c a : Nat) :
    retryNumbering conflict c a =
      if conflict a c then
        if a + 1 > 20 then Except.error "RevisionConflictExhausted"
        else retryNumbering conflict (c + 1) (a + 1)
      else Except.ok c := by
  unfold retryNumbering
  rcases Nat.lt_or_ge a 20 with h | h
  · have hfe : 20 - a = (20 - (a + 1)) + 1 := by omega
    rw [hfe]
    by_cases hc : conflict a c
    · simp only [retryNumberingGo]
      rw [if_pos hc, if_pos hc, if_neg (by omega)]
    · simp only [retryNumberingGo]
      rw [if_neg hc, if_neg hc]
  · have hfe : 20 - a = 0 := by omega
    rw [hfe]
    by_cases hc : conflict a c
    · simp only [retryNumberingGo]
      rw [if_pos hc, if_pos hc, if_pos (by omega)]
    · simp only [retryNumberingGo]
      rw [if_neg hc, if_neg hc]

theorem retryNumbering_error_msg (conflict : Nat → Nat → Bool) :
    ∀ n a c e, 21 - a ≤ n → retryNumbering conflict c a = Except.error e →
      e = "RevisionConflictExhausted" := by
  intro n
  induction n with
  | zero =>
    intro a c e h1 h2
    rw [retryNumbering_unfold] at h2
    cases hc : conflict a c
    · simp [hc] at h2
    · have hgt : a + 1 > 20 := by omega
      simp [hc, hgt] at h2
      exact h2.symm
  | succ m ih =>
    intro a c e h1 h2
    rw [retryNumbering_unfold] at h2
    cases hc : conflict a c
    · simp [hc] at h2
    · by_cases hgt : a + 1 > 20
      · simp [hc, hgt] at h2
        exact h2.symm
      · simp [hc, hgt] at h2
        exact ih (a + 1) (c + 1) e (by omega) h2

theorem retryNumbering_ok_ge (conflict : Nat → Nat → Bool) :
    ∀ n a c nr, 21 - a ≤ n → retryNumbering conflict c a = Except.ok nr → c ≤ nr := by
  intro n
  induction n with
  | zero =>
    intro a c nr h1 h2
    rw [retryNumbering_unfold] at h2
    cases hc : conflict a c
    · simp [hc] at h2
      omega
    · have hgt : a + 1 > 20 := by omega
      simp [hc, hgt] at h2
  | succ m ih =>
    intro a c nr h1 h2
    rw [retryNumbering_unfold] at h2
    cases hc : conflict a c
    · simp [hc] at h2
      omega
    · by_cases hgt : a + 1 > 20
      · simp [hc, hgt] at h2
      · simp [hc, hgt] at h2
        have := ih (a + 1) (c + 1) nr (by omega) h2
        omega

theorem retryNumbering_error_iff (conflict : Nat → Nat → Bool) :
    ∀ n a c, n = 20 - a → a ≤ 20 →
      (retryNumbering conflict c a = Except.error "RevisionConflictExhausted" ↔
        ∀ i, i ≤ n → conflict (a + i) (c + i) = true) := by
  intro n
  induction n with
  | zero =>
    intro a c hn ha
    have ha20 : a = 20 := by omega
    subst ha20
    rw [retryNumbering_unfold]
    cases hc : conflict 20 c
    · constructor
      · intro h
        simp [hc] at h
      · intro h
        have h0 := h 0 (by omega)
        simp only [Nat.add_zero] at h0
        rw [h0] at hc
        cases hc
    · constructor
      · intro _ i hi
        have hi0 : i = 0 := by omega
        subst hi0
        simpa using hc
      · intro _
        simp [hc]
  | succ m ih =>
    intro a c hn ha
    rw [retryNumbering_unfold]
    cases hc : conflict a c
    · constructor
      · intro h
        simp [hc] at h
      · intro h
        have h0 := h 0 (by omega)
        simp only [Nat.add_zero] at h0
        rw [h0] at hc
        cases hc
    · have hgt : ¬ (a + 1 > 20) := by omega
      rw [if_pos (rfl : true = true), if_neg hgt, ih (a + 1) (c + 1) (by omega) (by omega)]
      constructor
      · intro h i hi
        cases i with
        | zero => simpa using hc
        | succ j =>
          have hj := h j (by omega)
          have harg1 : a + 1 + j = a + (j + 1) := by omega
          have harg2 : c + 1 + j = c + (j + 1) := by omega
          rw [harg1, harg2] at hj
          exact hj
      · intro h i hi
        have hj := h (i + 1) (by omega)
        have harg1 : a + 1 + i = a + (i + 1) := by omega
        have harg2 : c + 1 + i = c + (i + 1) := by omega
        rw [harg1, harg2]
        exact hj

theorem retryNumbering_ok_spec (conflict : Nat → Nat → Bool) :
    ∀ n a c nr, n = 20 - a → a ≤ 20 →
      retryNumbering conflict c a = Except.ok nr →
      ∃ k, k ≤ n ∧ nr = c + k ∧ conflict (a + k) (c + k) = false ∧
        ∀ j, j < k → conflict (a + j) (c + j) = true := by
  intro n
  induction n with
  | zero =>
    intro a c nr hn ha h
    have ha20 : a = 20 := by omega
    subst ha20
    rw [retryNumbering_unfold] at h
    cases hc : conflict 20 c
    · rw [if_neg (by simp [hc])] at h
      refine ⟨0, by omega, ?_, by simpa using hc, by omega⟩
      cases h
      omega
    · rw [if_pos (by simp [hc]), if_pos (by omega)] at h
      cases h
  | succ m ih =>
    intro a c nr hn ha h
    rw [retryNumbering_unfold] at h
    cases hc : conflict a c
    · rw [if_neg (by simp [hc])] at h
      refine ⟨0, by omega, ?_, by simpa using hc, by omega⟩
      cases h
      omega
    · have hgt : ¬ (a + 1 > 20) := by omega
      rw [if_pos (by simp [hc]), if_neg hgt] at h
      rcases ih (a + 1) (c + 1) nr (by omega) (by omega) h with ⟨k, hk, hnr, hcf, hprev⟩
      refine ⟨k + 1, by omega, by omega, ?_, ?_⟩
      · have harg1 : a + 1 + k = a + (k + 1) := by omega
        have harg2 : c + 1 + k = c + (k + 1) := by omega
        rw [harg1, harg2] at hcf
        exact hcf
      · intro j hj
        cases j with
        | zero => simpa using hc
        | succ j2 =>
          have hj2 := hprev j2 (by omega)
          have harg1 : a + 1 + j2 = a + (j2 + 1) := by omega
          have harg2 : c + 1 + j2 = c + (j2 + 1) := by omega
          rw [harg1, harg2] at hj2
          exact hj2

/-! Helper lemmas about `Revision.save`. -/

theorem numberedForSave_delta (s : Store) (r : Revision) :
    (numberedForSave s r).delta = r.delta := by
  unfold numberedForSave
  cases r.id <;> rfl

theorem numberedForSave_sha1 (s : Store) (r : Revision) :
    (numberedForSave s r).sha1 = sha1_of_delta r.delta := by
  unfold numberedForSave
  cases r.id <;> rfl

theorem numberedForSave_id (s : Store) (r : Revision) :
    (numberedForSave s r).id = r.id := by
  unfold numberedForSave
  cases r.id <;> rfl

theorem numberedForSave_ct (s : Store) (r : Revision) :
    (numberedForSave s r).content_type = r.content_type := by
  unfold numberedForSave
  cases r.id <;> rfl

theorem numberedForSave_oid (s : Store) (r : Revision) :
    (numberedForSave s r).object_id = r.object_id := by
  unfold numberedForSave
  cases r.id <;> rfl

theorem numberedForSave_of_fresh (s : Store) (r : Revision) (hid : r.id = Option.none) :
    numberedForSave s r =
      { r with sha1 := sha1_of_delta r.delta, revision := nextRevisionNumber s r } := by
  unfold numberedForSave
  rw [show ({ r with sha1 := sha1_of_delta r.delta } : Revision).id = r.id from rfl, hid]
  rfl

theorem numberedForSave_of_update (s : Store) (r : Revision) (i : Nat) (hid : r.id = some i) :
    numberedForSave s r = { r with sha1 := sha1_of_delta r.delta } := by
  unfold numberedForSave
  rw [show ({ r with sha1 := sha1_of_delta r.delta } : Revision).id = r.id from rfl, hid]

theorem save_ok_elim (s : Store) (r : Revision) (s2 : Store) (r2 : Revision)
    (h : Revision.save s r = Except.ok (s2, r2)) :
    ∃ n, retryNumbering
        (fun _ cand => conflictsWith s { numberedForSave s r with revision := cand })
        (numberedForSave s r).revision 0 = Except.ok n ∧
      s2 = dbWrite s { numberedForSave s r with revision := n } ∧
      r2 = writtenRow s { numberedForSave s r with revision := n } := by
  unfold Revision.save at h
  split at h
  · cases h
  · rename_i n heq
    injection h with h2
    exact ⟨n, heq, congrArg Prod.fst h2.symm, congrArg Prod.snd h2.symm⟩

theorem save_error_msg (s : Store) (r : Revision) (e : String)
    (h : Revision.save s r = Except.error e) : e = "RevisionConflictExhausted" := by
  unfold Revision.save at h
  split at h
  · rename_i e2 heq
    injection h with h2
    exact h2.symm.trans (retryNumbering_error_msg _ 21 0 _ e2 (by omega) heq)
  · cases h

/-! Claim theorems C1, C3, C7. -/

/-- Claim C1: the delta stored for an edit holds, per changed tracked field,
the reverse diff `diff(new, old)` (with `obj_diff` called as
`obj_diff(instance, original)` by `pre_save`), and applying the stored patch
to the post-edit text always yields the pre-edit text; in general
`patch_apply (diff_main a b) a = b`. -/
theorem c1_reverse_diff_round_trip (a b : String) (reg : ModelDef) (obj1 obj2 : Entity)
    (k : String) (p : Patch) (h : (k, p) ∈ obj_diff reg obj1 obj2) :
    patch_apply (diff_main a b) a = b ∧
    ∃ f, f ∈ reg.fieldNames ∧ k = reg.name ++ "." ++ f ∧
      p = diff_main (force_unicode (getattr obj1 f)) (force_unicode (getattr obj2 f)) ∧
      patch_apply (patch_fromText p) (force_unicode (getattr obj1 f)) =
        force_unicode (getattr obj2 f) := by
  constructor
  · simp [patch_apply, diff_main]
  · unfold obj_diff at h
    rcases List.mem_map.mp h with ⟨f, hf, hfe⟩
    cases hfe
    refine ⟨f, List.mem_of_mem_filter hf, rfl, rfl, ?_⟩
    simp [patch_apply, patch_fromText, diff_main]

/-- Witness for C1 at the fixture edit `B` to `C`: the stored block is keyed
`Page.title`, holds `diff("C", "B")`, and patches `"C"` back to `"B"`. -/
theorem c1_reverse_diff_round_trip_witness :
    patch_apply (diff_main "C" "B") "C" = "B" ∧
    ∃ f, f ∈ reg0.fieldNames ∧ "Page.title" = reg0.name ++ "." ++ f ∧
      (⟨"C", "B"⟩ : Patch) =
        diff_main (force_unicode (getattr pageC f)) (force_unicode (getattr pageB f)) ∧
      patch_apply (patch_fromText ⟨"C", "B"⟩) (force_unicode (getattr pageC f)) =
        force_unicode (getattr pageB f) :=
  c1_reverse_diff_round_trip "C" "B" reg0 pageC pageB "Page.title" ⟨"C", "B"⟩ (by decide)

/-- Claim C3: on a uniqueness conflict the candidate number is incremented and
the save retried; after the initial attempt plus 20 conflicted retries the
loop gives up with the fatal exhaustion error, and a successful number is the
first conflict-free candidate; `Revision.save` surfaces no error other than
the exhaustion error, so the failure is never silently dropped. -/
theorem c3_bounded_retry (conflict : Nat → Nat → Bool) (c : Nat) :
    (retryNumbering conflict c 0 = Except.error "RevisionConflictExhausted" ↔
      ∀ i, i ≤ 20 → conflict i (c + i) = true) ∧
    (∀ nr, retryNumbering conflict c 0 = Except.ok nr →
      ∃ k, k ≤ 20 ∧ nr = c + k ∧ conflict k (c + k) = false ∧
        ∀ j, j < k → conflict j (c + j) = true) ∧
    (∀ s r e, Revision.save s r = Except.error e → e = "RevisionConflictExhausted") := by
  refine ⟨?_, ?_, ?_⟩
  · simpa using retryNumbering_error_iff conflict 20 0 c (by omega) (by omega)
  · intro nr h
    simpa using retryNumbering_ok_spec conflict 20 0 c nr (by omega) (by omega) h
  · intro s r e h
    exact save_error_msg s r e h

/-- Witness for C3: with every candidate conflicted the loop starting at
candidate 5 exhausts and errors out. -/
theorem c3_bounded_retry_witness :
    retryNumbering (fun _ _ => true) 5 0 = Except.error "RevisionConflictExhausted" :=
  (c3_bounded_retry (fun _ _ => true) 5).1.mpr (fun _ _ => rfl)

/-- Claim C7: after every successful `Revision.save` — first saves and the
re-saves that flip `reverted` alike — the saved row's stored fingerprint is
the hash of exactly the delta it persists, and every row of the resulting
store either predates the save or satisfies the fingerprint equation. -/
theorem c7_fingerprint_invariant (s : Store) (r : Revision) (s2 : Store) (r2 : Revision)
    (h : Revision.save s r = Except.ok (s2, r2)) :
    r2.sha1 = sha1_of_delta r2.delta ∧
    ∀ q ∈ s2, q ∈ s ∨ q.sha1 = sha1_of_delta q.delta := by
  rcases save_ok_elim s r s2 r2 h with ⟨n, _, hs2, hr2⟩
  have hsha : ({ numberedForSave s r with revision := n } : Revision).sha1 =
      sha1_of_delta ({ numberedForSave s r with revision := n } : Revision).delta := by
    show (numberedForSave s r).sha1 = sha1_of_delta (numberedForSave s r).delta
    rw [numberedForSave_sha1, numberedForSave_delta]
  constructor
  · subst hr2
    unfold writtenRow
    split <;> exact hsha
  · intro q hq
    subst hs2
    unfold dbWrite at hq
    revert hq
    split
    · intro hq
      rcases List.mem_append.mp hq with hq1 | hq1
      · exact Or.inl hq1
      · right
        rcases List.mem_singleton.mp hq1 with rfl
        exact hsha
    · rename_i i _
      intro hq
      rcases List.mem_map.mp hq with ⟨q0, hq0, hfe⟩
      dsimp only at hfe
      by_cases hcond : q0.id == some i
      · rw [if_pos hcond] at hfe
        right
        rw [← hfe]
        exact hsha
      · rw [if_neg hcond] at hfe
        exact Or.inl (hfe ▸ hq0)

/-- Witness for C7 at the fixture store: the persisted further edit carries
the fingerprint of its own delta, and every other row predates the save. -/
theorem c7_fingerprint_invariant_witness :
    fxSaveRow.sha1 = sha1_of_delta fxSaveRow.delta ∧
    ∀ q ∈ fxSaveStore, q ∈ fxW3.revisions ∨ q.sha1 = sha1_of_delta q.delta :=
  c7_fingerprint_invariant fxW3.revisions fxNewRev fxSaveStore fxSaveRow rfl

/-! Helper lemmas about the descending sort and the replay querysets. -/

theorem mem_insertRevDesc (r x : Revision) (l : List Revision) :
    x ∈ insertRevDesc r l ↔ x = r ∨ x ∈ l := by
  induction l with
  | nil => simp [insertRevDesc]
  | cons a t ih =>
    unfold insertRevDesc
    by_cases hc : a.revision ≤ r.revision
    · rw [if_pos hc]
      simp only [List.mem_cons]
    · rw [if_neg hc]
      simp only [List.mem_cons, ih]
      tauto

theorem mem_sortRevDesc (x : Revision) (l : List Revision) :
    x ∈ sortRevDesc l ↔ x ∈ l := by
  induction l with
  | nil => simp [sortRevDesc]
  | cons a t ih =>
    simp only [sortRevDesc, mem_insertRevDesc, ih, List.mem_cons]

theorem insertRevDesc_map (g : Revision → Revision) (hg : ∀ x, (g x).revision = x.revision)
    (r : Revision) (l : List Revision) :
    insertRevDesc (g r) (l.map g) = (insertRevDesc r l).map g := by
  induction l with
  | nil => simp [insertRevDesc]
  | cons a t ih =>
    unfold insertRevDesc
    simp only [List.map_cons]
    by_cases hc : a.revision ≤ r.revision
    · rw [if_pos (by rw [hg, hg]; exact hc), if_pos hc]
      simp
    · rw [if_neg (by rw [hg, hg]; exact hc), if_neg hc]
      simp [ih]

theorem sortRevDesc_map (g : Revision → Revision) (hg : ∀ x, (g x).revision = x.revision)
    (l : List Revision) : sortRevDesc (l.map g) = (sortRevDesc l).map g := by
  induction l with
  | nil => rfl
  | cons a t ih =>
    simp only [List.map_cons, sortRevDesc, ih, insertRevDesc_map g hg]

theorem get_for_object_map (g : Revision → Revision)
    (hct : ∀ x, (g x).content_type = x.content_type)
    (hoid : ∀ x, (g x).object_id = x.object_id) (s : Store) (ct oid : String) :
    get_for_object (s.map g) ct oid = (get_for_object s ct oid).map g := by
  unfold get_for_object
  rw [List.filter_map]
  congr 1
  apply List.filter_congr
  intro x _
  simp [Function.comp, hct, hoid]

theorem mem_get_for_object (s : Store) (ct oid : String) (r : Revision) :
    r ∈ get_for_object s ct oid ↔ r ∈ s ∧ r.content_type = ct ∧ r.object_id = oid := by
  unfold get_for_object
  rw [List.mem_filter]
  simp [and_assoc]

/-- Claim C10: the replay querysets select rows purely by revision-number
range — strictly greater for `reapply`, at-least for `display_diff` — with no
condition on the `reverted` flag; and rewriting the flags of the whole store
arbitrarily changes neither the revision numbers nor the deltas the replays
apply. -/
theorem c10_reverted_rows_not_excluded (s : Store) (ct oid : String) (n : Nat)
    (b : Revision → Bool) (r : Revision) :
    (r ∈ selectGtDesc s ct oid n ↔
      r ∈ s ∧ r.content_type = ct ∧ r.object_id = oid ∧ n < r.revision) ∧
    (r ∈ selectGteDesc s ct oid n ↔
      r ∈ s ∧ r.content_type = ct ∧ r.object_id = oid ∧ n ≤ r.revision) ∧
    ((selectGtDesc (s.map (fun q => { q with reverted := b q })) ct oid n).map
        (fun q => (q.revision, q.delta)) =
      (selectGtDesc s ct oid n).map (fun q => (q.revision, q.delta))) ∧
    ((selectGteDesc (s.map (fun q => { q with reverted := b q })) ct oid n).map
        (fun q => (q.revision, q.delta)) =
      (selectGteDesc s ct oid n).map (fun q => (q.revision, q.delta))) := by
  have hmemGt : r ∈ selectGtDesc s ct oid n ↔
      r ∈ s ∧ r.content_type = ct ∧ r.object_id = oid ∧ n < r.revision := by
    unfold selectGtDesc
    rw [mem_sortRevDesc, List.mem_filter, mem_get_for_object]
    simp [and_assoc]
  have hmemGte : r ∈ selectGteDesc s ct oid n ↔
      r ∈ s ∧ r.content_type = ct ∧ r.object_id = oid ∧ n ≤ r.revision := by
    unfold selectGteDesc
    rw [List.mem_reverse, List.mem_filter, mem_get_for_object]
    simp [and_assoc]
  refine ⟨hmemGt, hmemGte, ?_, ?_⟩
  · unfold selectGtDesc
    rw [get_for_object_map (fun q => { q with reverted := b q }) (fun _ => rfl) (fun _ => rfl),
        List.filter_map]
    have hfc : List.filter ((fun r2 => decide (n < r2.revision)) ∘
          (fun q => { q with reverted := b q })) (get_for_object s ct oid) =
        List.filter (fun r2 => decide (n < r2.revision)) (get_for_object s ct oid) :=
      List.filter_congr (fun x _ => rfl)
    rw [hfc, sortRevDesc_map (fun q => { q with reverted := b q }) (fun _ => rfl), List.map_map]
    exact List.map_congr_left (fun x _ => rfl)
  · unfold selectGteDesc
    rw [get_for_object_map (fun q => { q with reverted := b q }) (fun _ => rfl) (fun _ => rfl),
        List.filter_map]
    have hfc : List.filter ((fun r2 => decide (n ≤ r2.revision)) ∘
          (fun q => { q with reverted := b q })) (get_for_object s ct oid) =
        List.filter (fun r2 => decide (n ≤ r2.revision)) (get_for_object s ct oid) :=
      List.filter_congr (fun x _ => rfl)
    rw [hfc, List.map_reverse, List.map_reverse, List.map_map]
    exact congrArg List.reverse (List.map_congr_left (fun x _ => rfl))

/-! Helper lemmas for the sequencer invariant and conflict-free first saves. -/

theorem linesAscending_objRows (s : Store) (hs : linesAscending s) (ct oid : String) :
    (get_for_object s ct oid).Pairwise (fun a b => a.revision < b.revision) := by
  cases hq : get_for_object s ct oid with
  | nil => simp
  | cons q t =>
    have hqmem : q ∈ get_for_object s ct oid := by
      rw [hq]
      exact List.mem_cons_self q t
    rcases (mem_get_for_object s ct oid q).mp hqmem with ⟨hqs, hct, hoid⟩
    have hp := hs q hqs
    rw [hct, hoid, List.pairwise_map, hq] at hp
    exact hp

theorem ascending_getLast_max :
    ∀ (l : List Revision), l.Pairwise (fun a b => a.revision < b.revision) →
      ∀ m, l.getLast? = some m → ∀ q ∈ l, q.revision ≤ m.revision := by
  intro l
  induction l with
  | nil =>
    intro _ m hm
    cases hm
  | cons a t ih =>
    intro hp m hm q hq
    cases t with
    | nil =>
      have hma : m = a := by
        simp only [List.getLast?_singleton, Option.some.injEq] at hm
        exact hm.symm
      rcases List.mem_singleton.mp hq with rfl
      rw [hma]
    | cons b t2 =>
      rw [List.getLast?_cons_cons] at hm
      have hmm : m ∈ b :: t2 := by
        have hx := List.mem_getLast?_eq_getLast (l := b :: t2) (x := m) (by simp [hm])
        rcases hx with ⟨hne, rfl⟩
        exact List.getLast_mem hne
      rcases List.mem_cons.mp hq with rfl | hq2
      · have := (List.pairwise_cons.mp hp).1 m hmm
        omega
      · exact ih (List.pairwise_cons.mp hp).2 m hm q hq2

theorem numberedForSave_revision_fresh (s : Store) (r : Revision)
    (hid : r.id = Option.none) :
    (numberedForSave s r).revision = nextRevisionNumber s r := by
  rw [numberedForSave_of_fresh s r hid]

theorem insert_no_conflict (s : Store) (r : Revision) (hs : linesAscending s)
    (hid : r.id = Option.none) : conflictsWith s (numberedForSave s r) = false := by
  unfold conflictsWith
  rw [List.any_eq_false]
  intro q hq
  simp only [Bool.and_eq_true, bne_iff_ne, beq_iff_eq, not_and]
  intro h1 h4
  rcases h1 with ⟨⟨_, h2⟩, h3⟩
  have hqobj : q ∈ get_for_object s r.content_type r.object_id := by
    rw [mem_get_for_object]
    rw [numberedForSave_ct] at h3
    rw [numberedForSave_oid] at h2
    exact ⟨hq, h3, h2⟩
  have hrev : (numberedForSave s r).revision = nextRevisionNumber s r :=
    numberedForSave_revision_fresh s r hid
  rw [hrev] at h4
  unfold nextRevisionNumber at h4
  revert h4
  cases hlast : (get_for_object s r.content_type r.object_id).getLast? with
  | none =>
    rw [List.getLast?_eq_none_iff] at hlast
    rw [hlast] at hqobj
    cases hqobj
  | some m =>
    intro h4
    dsimp only at h4
    have hmax := ascending_getLast_max _ (linesAscending_objRows s hs _ _) m hlast q hqobj
    omega

theorem save_first_attempt_ok (s : Store) (r : Revision)
    (hconf : conflictsWith s (numberedForSave s r) = false) :
    Revision.save s r =
      Except.ok (dbWrite s (numberedForSave s r), writtenRow s (numberedForSave s r)) := by
  unfold Revision.save
  rw [retryNumbering_unfold]
  have hc : conflictsWith s
      { numberedForSave s r with revision := (numberedForSave s r).revision } = false := hconf
  rw [hc]
  rfl

theorem dbWrite_insert (s : Store) (r : Revision) (hid : r.id = Option.none) :
    dbWrite s r = s ++ [{ r with id := some s.length }] := by
  unfold dbWrite
  rw [hid]

theorem writtenRow_insert (s : Store) (r : Revision) (hid : r.id = Option.none) :
    writtenRow s r = { r with id := some s.length } := by
  unfold writtenRow
  rw [hid]

theorem save_insert_ok (s : Store) (r : Revision) (hs : linesAscending s)
    (hid : r.id = Option.none) :
    Revision.save s r = Except.ok (s ++ [insertedRow s r], insertedRow s r) := by
  have hid2 : (numberedForSave s r).id = Option.none := by
    rw [numberedForSave_id]
    exact hid
  rw [save_first_attempt_ok s r (insert_no_conflict s r hs hid),
      dbWrite_insert _ _ hid2, writtenRow_insert _ _ hid2,
      numberedForSave_of_fresh s r hid]
  rfl

theorem idsFromB_append_one (x : Revision) :
    ∀ (l : Store) (k : Nat),
      idsFromB k (l ++ [x]) = (idsFromB k l && (x.id == some (k + l.length))) := by
  intro l
  induction l with
  | nil =>
    intro k
    simp [idsFromB]
  | cons a t ih =>
    intro k
    show ((a.id == some k) && idsFromB (k + 1) (t ++ [x])) =
      (((a.id == some k) && idsFromB (k + 1) t) && (x.id == some (k + (a :: t).length)))
    rw [ih (k + 1), Bool.and_assoc]
    have harith : k + 1 + t.length = k + (a :: t).length := by
      simp only [List.length_cons]
      omega
    rw [harith]

theorem get_for_object_append_one (s : Store) (x : Revision) (ct oid : String) :
    get_for_object (s ++ [x]) ct oid =
      get_for_object s ct oid ++
        if (x.content_type == ct && x.object_id == oid) = true then [x] else [] := by
  unfold get_for_object
  rw [List.filter_append, List.filter_cons]
  simp only [List.filter_nil]

theorem objRows_lt_next (s : Store) (r : Revision) (hs : linesAscending s) :
    ∀ q ∈ get_for_object s r.content_type r.object_id,
      q.revision < nextRevisionNumber s r := by
  intro q hq
  unfold nextRevisionNumber
  cases hlast : (get_for_object s r.content_type r.object_id).getLast? with
  | none =>
    rw [List.getLast?_eq_none_iff] at hlast
    rw [hlast] at hq
    cases hq
  | some m =>
    dsimp only
    have hmax := ascending_getLast_max _ (linesAscending_objRows s hs _ _) m hlast q hq
    omega

theorem linesAscending_insert (s : Store) (r : Revision) (hs : linesAscending s) :
    linesAscending (s ++ [insertedRow s r]) := by
  intro q hq
  rw [get_for_object_append_one]
  by_cases hline : ((insertedRow s r).content_type == q.content_type &&
      (insertedRow s r).object_id == q.object_id) = true
  · rw [if_pos hline]
    rcases Bool.and_eq_true_iff.mp hline with ⟨hct, hoid⟩
    rw [beq_iff_eq] at hct hoid
    have hct2 : r.content_type = q.content_type := hct
    have hoid2 : r.object_id = q.object_id := hoid
    rw [List.map_append, List.pairwise_append]
    refine ⟨List.pairwise_map.mpr (linesAscending_objRows s hs _ _), by simp, ?_⟩
    intro a ha b hb
    simp only [List.map_cons, List.map_nil, List.mem_singleton] at hb
    rcases List.mem_map.mp ha with ⟨q0, hq0, rfl⟩
    rw [← hct2, ← hoid2] at hq0
    have := objRows_lt_next s r hs q0 hq0
    rw [hb]
    exact this
  · rw [if_neg hline]
    simp only [List.append_nil]
    exact List.pairwise_map.mpr (linesAscending_objRows s hs _ _)

theorem storeOk_insert (s : Store) (r : Revision) (hs : storeOk s) :
    storeOk (s ++ [insertedRow s r]) := by
  constructor
  · rw [idsFromB_append_one, hs.1]
    simp [insertedRow]
  · exact linesAscending_insert s r hs.2

/-- Claim C2: with a sane store, saving a fresh Revision for an object
succeeds and appends a row numbered `latest + 1`: the number is 1 on the
object's first Revision, strictly greater than every previously persisted
number of that history line otherwise, the store invariant survives, the
line's numbers stay pairwise distinct and ascending, and under arbitrary
concurrent interference the retry loop only ever increments its candidate,
so any persisted number is at least the initial `max + 1` candidate. -/
theorem c2_revision_numbering (s : Store) (r : Revision) (hs : storeOk s)
    (hid : r.id = Option.none) :
    Revision.save s r = Except.ok (s ++ [insertedRow s r], insertedRow s r) ∧
    (get_for_object s r.content_type r.object_id = [] →
      (insertedRow s r).revision = 1) ∧
    (∀ q ∈ get_for_object s r.content_type r.object_id,
      q.revision < (insertedRow s r).revision) ∧
    storeOk (s ++ [insertedRow s r]) ∧
    ((get_for_object (s ++ [insertedRow s r]) r.content_type r.object_id).map
      (·.revision)).Pairwise (· < ·) ∧
    (∀ conflict c a n, retryNumbering conflict c a = Except.ok n → c ≤ n) := by
  have hins := save_insert_ok s r hs.2 hid
  have hnext : (insertedRow s r).revision = nextRevisionNumber s r := rfl
  refine ⟨hins, ?_, ?_, storeOk_insert s r hs, ?_, ?_⟩
  · intro hempty
    rw [hnext]
    unfold nextRevisionNumber
    rw [hempty]
    rfl
  · intro q hq
    rw [hnext]
    exact objRows_lt_next s r hs.2 q hq
  · have h2 := (storeOk_insert s r hs).2 (insertedRow s r)
      (List.mem_append_right _ (List.mem_singleton.mpr rfl))
    exact h2
  · intro conflict c a n h
    exact retryNumbering_ok_ge conflict 21 a c n (by omega) h

/-- Witness for C2 over the three-save fixture store: a fourth edit of the
page persists revision number 4. -/
theorem c2_revision_numbering_witness :
    Revision.save fxW3.revisions fxNewRev =
      Except.ok (fxW3.revisions ++ [insertedRow fxW3.revisions fxNewRev],
        insertedRow fxW3.revisions fxNewRev) ∧
    (get_for_object fxW3.revisions fxNewRev.content_type fxNewRev.object_id = [] →
      (insertedRow fxW3.revisions fxNewRev).revision = 1) ∧
    (∀ q ∈ get_for_object fxW3.revisions fxNewRev.content_type fxNewRev.object_id,
      q.revision < (insertedRow fxW3.revisions fxNewRev).revision) ∧
    storeOk (fxW3.revisions ++ [insertedRow fxW3.revisions fxNewRev]) ∧
    ((get_for_object (fxW3.revisions ++ [insertedRow fxW3.revisions fxNewRev])
        fxNewRev.content_type fxNewRev.object_id).map (·.revision)).Pairwise (· < ·) ∧
    (∀ conflict c a n, retryNumbering conflict c a = Except.ok n → c ≤ n) :=
  c2_revision_numbering fxW3.revisions fxNewRev (by decide) rfl

/-! Helper lemmas about the tracked-save pipeline. -/

theorem pre_save_delta (reg : ModelDef) (db : List Entity) (req : Option Request)
    (info0 : Option RevisionInfo) (inst : Entity) :
    (pre_save reg db req info0 inst).delta =
      some (obj_diff reg inst ((db.find? (fun e => e.model == inst.model &&
        e.objectId == inst.objectId)).getD (blankInstance reg inst))) := by
  unfold pre_save
  cases req with
  | none =>
    dsimp only
    split <;> rfl
  | some rq =>
    dsimp only
    repeat' split
    all_goals rfl

theorem infoTruthy_pre_save (reg : ModelDef) (db : List Entity) (req : Option Request)
    (info0 : Option RevisionInfo) (inst : Entity) :
    infoTruthy (pre_save reg db req info0 inst) = true := by
  unfold infoTruthy
  rw [pre_save_delta]
  rfl

theorem post_save_appends (s : Store) (inst : Entity) (i : RevisionInfo)
    (hs : linesAscending s) (ht : infoTruthy i = true) :
    post_save s inst (some i) =
      Except.ok (s ++ [insertedRow s (revisionFromInfo inst i)]) := by
  unfold post_save
  dsimp only
  rw [if_pos ht, save_insert_ok s (revisionFromInfo inst i) hs rfl]

theorem trackedSave_spec (reg : ModelDef) (w : World) (req : Option Request)
    (info0 : Option RevisionInfo) (inst : Entity) (hs : linesAscending w.revisions) :
    trackedSave reg w req info0 inst =
      (⟨upsertEntity w.entities inst,
        w.revisions ++ [insertedRow w.revisions
          (revisionFromInfo inst (pre_save reg w.entities req info0 inst))]⟩,
       Except.ok ()) := by
  unfold trackedSave
  dsimp only
  rw [post_save_appends _ _ _ hs (infoTruthy_pre_save reg w.entities req info0 inst)]

/-! Claims C6, C8, C9. -/

/-- Claim C6 amended: revert is not atomic — the replay persists each consumed
Revision's `reverted` flag individually as it goes, so when it fails midway
the store already holds exactly the writes of the successfully consumed
prefix of the (newest-first) changeset list, and nothing after the failure
(in particular no forward Revision) has been written. -/
theorem c6_amended_partial_persistence (reg : ModelDef) (s : Store) (obj : Entity)
    (l : List Revision) (e : String)
    (h : (processChangesets reg s obj l).2 = Except.error e) :
    ∃ k, k < l.length ∧
      (processChangesets reg s obj l).1 = (processChangesets reg s obj (l.take k)).1 ∧
      ∃ obj2, (processChangesets reg s obj (l.take k)).2 = Except.ok obj2 := by
  induction l generalizing s obj with
  | nil =>
    exact Except.noConfusion h
  | cons cs rest ih =>
    rcases hda : applyDelta reg obj (diff_split_by_fields cs.delta) with e2 | obj2
    · refine ⟨0, by simp, ?_, obj, ?_⟩
      · simp only [processChangesets, hda, List.take_zero]
      · simp only [processChangesets, List.take_zero]
    · rcases hsv : Revision.save s { cs with reverted := true } with e3 | p
      · refine ⟨0, by simp, ?_, obj, ?_⟩
        · simp only [processChangesets, hda, hsv, List.take_zero]
        · simp only [processChangesets, List.take_zero]
      · rcases p with ⟨s2, r2⟩
        have hstep : processChangesets reg s obj (cs :: rest) =
            processChangesets reg s2 obj2 rest := by
          simp only [processChangesets, hda, hsv]
        rw [hstep] at h
        rcases ih s2 obj2 h with ⟨k, hk, hst, obj3, hok⟩
        refine ⟨k + 1, by simp only [List.length_cons]; omega, ?_, obj3, ?_⟩
        · rw [hstep, hst]
          simp only [List.take_succ_cons, processChangesets, hda, hsv]
        · simp only [List.take_succ_cons, processChangesets, hda, hsv]
          exact hok

/-- Witness for the amended C6 at the malformed-history fixture: the failing
replay's store equals the store after the one-element prefix succeeded. -/
theorem c6_amended_partial_persistence_witness :
    ∃ k, k < ([badRow3, badRow2] : List Revision).length ∧
      (processChangesets reg0 fxBadW.revisions page9 [badRow3, badRow2]).1 =
        (processChangesets reg0 fxBadW.revisions page9 ([badRow3, badRow2].take k)).1 ∧
      ∃ obj2, (processChangesets reg0 fxBadW.revisions page9
        ([badRow3, badRow2].take k)).2 = Except.ok obj2 :=
  c6_amended_partial_persistence reg0 fxBadW.revisions page9 [badRow3, badRow2]
    "ValueError" (by decide)

/-- Counterexample to C6 as stated: reverting the malformed-history fixture to
revision 1 fails midway with `ValueError`, yet revision 3 is already persisted
with `reverted = true` while revision 2 is not and no forward Revision was
created — a partial flag update, not a single logical transaction. -/
theorem c6_counterexample_partial_flags :
    fxBadRes.2 = Except.error "ValueError" ∧
    fxBadRes.1.revisions.map (fun r => (r.revision, r.reverted)) =
      [(1, false), (2, false), (3, true)] ∧
    fxBadW.revisions.map (fun r => (r.revision, r.reverted)) =
      [(1, false), (2, false), (3, false)] ∧
    fxBadRes.1.revisions.length = fxBadW.revisions.length :=
  ⟨by decide, by decide, by decide, by decide⟩

/-- Claim C8 (documenting the code bug): on the fixture revert with a caller
supplied acting user (pk 7) and address, the synthesized Revision's comment
names the reverted-to revision and the caller's address is persisted, but the
persisted editor is `None` — `signals.py` line 26 tests
`hasattr(info, 'editor')` on a dict, which is always false, so the caller's
editor is unconditionally overwritten with `None`. -/
theorem c8_revert_attribution_editor_dropped :
    fxRevertRes.2 = Except.ok () ∧
    (fxRevertRes.1.revisions.getLastD dummyRev).comment = "Reverted to revision #2" ∧
    (fxRevertRes.1.revisions.getLastD dummyRev).editor_ip = some "1.2.3.4" ∧
    (fxRevertRes.1.revisions.getLastD dummyRev).editor = Option.none :=
  ⟨by decide, by decide, by decide, by decide⟩

/-- Claim C9 amended: every save of a tracked entity creates exactly one
Revision — the `revision_info` dict is always truthy after `pre_save`, so a
Revision is appended even when no tracked field changed (its delta is then the
empty block list). -/
theorem c9_amended_revision_per_save (reg : ModelDef) (w : World) (req : Option Request)
    (inst : Entity) (hs : storeOk w.revisions) :
    ∃ rev, (trackedSave reg w req Option.none inst).1.revisions = w.revisions ++ [rev] ∧
      (trackedSave reg w req Option.none inst).2 = Except.ok () ∧
      rev.delta = obj_diff reg inst ((w.entities.find? (fun e =>
        e.model == inst.model && e.objectId == inst.objectId)).getD
          (blankInstance reg inst)) ∧
      (trackedSave reg w req Option.none inst).1.revisions.length =
        w.revisions.length + 1 := by
  refine ⟨insertedRow w.revisions
    (revisionFromInfo inst (pre_save reg w.entities req Option.none inst)), ?_, ?_, ?_, ?_⟩
  · rw [trackedSave_spec reg w req Option.none inst hs.2]
  · rw [trackedSave_spec reg w req Option.none inst hs.2]
  · show (revisionFromInfo inst (pre_save reg w.entities req Option.none inst)).delta = _
    show (pre_save reg w.entities req Option.none inst).delta.getD [] = _
    rw [pre_save_delta]
    rfl
  · rw [trackedSave_spec reg w req Option.none inst hs.2]
    simp

/-- Witness for the amended C9, which is also the counterexample to C9 as
stated: re-saving the fixture page unchanged still appends one Revision, with
an empty delta. -/
theorem c9_counterexample_no_change_save :
    obj_diff reg0 pageA ((fxW1.entities.find? (fun e =>
      e.model == pageA.model && e.objectId == pageA.objectId)).getD
        (blankInstance reg0 pageA)) = [] ∧
    fxW1.revisions.length = 1 ∧
    (trackedSave reg0 fxW1 Option.none Option.none pageA).1.revisions.length = 2 ∧
    (trackedSave reg0 fxW1 Option.none Option.none pageA).2 = Except.ok () :=
  ⟨by decide, by decide, by decide, by decide⟩

/-- Witness for the amended C9 through the amended theorem itself, at the
unchanged fixture save. -/
theorem c9_amended_revision_per_save_witness :
    ∃ rev, (trackedSave reg0 fxW1 Option.none Option.none pageA).1.revisions =
        fxW1.revisions ++ [rev] ∧
      (trackedSave reg0 fxW1 Option.none Option.none pageA).2 = Except.ok () ∧
      rev.delta = obj_diff reg0 pageA ((fxW1.entities.find? (fun e =>
        e.model == pageA.model && e.objectId == pageA.objectId)).getD
          (blankInstance reg0 pageA)) ∧
      (trackedSave reg0 fxW1 Option.none Option.none pageA).1.revisions.length =
        fxW1.revisions.length + 1 :=
  c9_amended_revision_per_save reg0 fxW1 Option.none pageA (by decide)

/-! Helper lemmas for the display replay (claim C5). -/

theorem displayApplyOne_ok (reg : ModelDef) (obj : Entity) (key : String) (p : Patch)
    (hk : (splitKey key).isSome = true) :
    ∃ obj2, displayApplyOne reg obj key p = Except.ok obj2 := by
  unfold displayApplyOne
  rcases hsk : splitKey key with _ | md
  · rw [hsk] at hk
    cases hk
  · dsimp only
    by_cases hcond : (md.1 != reg.name || !(reg.fieldNames.contains md.2)) = true
    · rw [if_pos hcond]
      exact ⟨obj, rfl⟩
    · rw [if_neg hcond]
      exact ⟨_, rfl⟩

theorem applyDiffToObject_ok (reg : ModelDef) (obj : Entity) (key : String) (p : Patch)
    (hk : (splitKey key).isSome = true) :
    ∃ obj2, applyDiffToObject reg obj key p = Except.ok obj2 := by
  unfold applyDiffToObject
  rcases hsk : splitKey key with _ | md
  · rw [hsk] at hk
    cases hk
  · dsimp only
    by_cases hcond : (md.1 != reg.name || !(reg.fieldNames.contains md.2)) = true
    · rw [if_pos hcond]
      exact ⟨obj, rfl⟩
    · rw [if_neg hcond]
      exact ⟨_, rfl⟩

theorem displayApplyDelta_ok (reg : ModelDef) :
    ∀ (d : List (String × Patch)) (obj : Entity), keysOk d = true →
      ∃ obj2, displayApplyDelta reg obj d = Except.ok obj2 := by
  intro d
  induction d with
  | nil =>
    intro obj _
    exact ⟨obj, rfl⟩
  | cons kv rest ih =>
    intro obj hk
    rw [keysOk, List.all_cons, Bool.and_eq_true] at hk
    rcases displayApplyOne_ok reg obj kv.1 kv.2 hk.1 with ⟨o2, ho2⟩
    rcases ih o2 hk.2 with ⟨o3, ho3⟩
    refine ⟨o3, ?_⟩
    simp only [displayApplyDelta, ho2]
    exact ho3

theorem applyDelta_ok (reg : ModelDef) :
    ∀ (d : List (String × Patch)) (obj : Entity), keysOk d = true →
      ∃ obj2, applyDelta reg obj d = Except.ok obj2 := by
  intro d
  induction d with
  | nil =>
    intro obj _
    exact ⟨obj, rfl⟩
  | cons kv rest ih =>
    intro obj hk
    rw [keysOk, List.all_cons, Bool.and_eq_true] at hk
    rcases applyDiffToObject_ok reg obj kv.1 kv.2 hk.1 with ⟨o2, ho2⟩
    rcases ih o2 hk.2 with ⟨o3, ho3⟩
    refine ⟨o3, ?_⟩
    simp only [applyDelta, ho2]
    exact ho3

theorem replayDeltas_ok (reg : ModelDef) :
    ∀ (l : List Revision) (obj : Entity), (∀ r ∈ l, keysOk r.delta = true) →
      ∃ after, replayDeltas reg obj l = Except.ok after := by
  intro l
  induction l with
  | nil =>
    intro obj _
    exact ⟨obj, rfl⟩
  | cons cs rest ih =>
    intro obj hk
    rcases displayApplyDelta_ok reg (diff_split_by_fields cs.delta) obj
        (hk cs (List.mem_cons_self cs rest)) with ⟨o2, ho2⟩
    rcases ih o2 (fun r hr => hk r (List.mem_cons_of_mem cs hr)) with ⟨after, hafter⟩
    refine ⟨after, ?_⟩
    simp only [replayDeltas, ho2]
    exact hafter

theorem filter_ge_split (x : Revision) :
    ∀ (l : List Revision), l.Pairwise (fun a b => a.revision < b.revision) → x ∈ l →
      l.filter (fun r => x.revision ≤ r.revision) =
        x :: l.filter (fun r => x.revision < r.revision) := by
  intro l
  induction l with
  | nil =>
    intro _ hx
    cases hx
  | cons a t ih =>
    intro hp hx
    rcases List.mem_cons.mp hx with rfl | hxt
    · rw [List.filter_cons_of_pos (by simp), List.filter_cons_of_neg (by simp)]
      have hall := (List.pairwise_cons.mp hp).1
      congr 1
      rw [List.filter_eq_self.mpr (fun r hr => by
            simp only [decide_eq_true_eq]
            exact Nat.le_of_lt (hall r hr)),
          List.filter_eq_self.mpr (fun r hr => by
            simp only [decide_eq_true_eq]
            exact hall r hr)]
    · have halt := (List.pairwise_cons.mp hp).1 x hxt
      rw [List.filter_cons_of_neg (by simp only [decide_eq_true_eq]; omega),
          List.filter_cons_of_neg (by simp only [decide_eq_true_eq]; omega)]
      exact ih (List.pairwise_cons.mp hp).2 hxt

theorem displayLoop_capture (reg : ModelDef) (self : Revision) :
    ∀ (xs : List Revision) (obj after before : Entity),
      replayDeltas reg obj xs = Except.ok after →
      displayApplyDelta reg after (diff_split_by_fields self.delta) = Except.ok before →
      displayLoop reg (xs ++ [self]) obj Option.none = Except.ok (before, some after) := by
  intro xs
  induction xs with
  | nil =>
    intro obj after before hrep happ
    have hoa : obj = after := by
      simpa only [replayDeltas, Except.ok.injEq] using hrep
    subst hoa
    simp only [List.nil_append, displayLoop, List.isEmpty_nil, if_true, happ]
  | cons x rest ih =>
    intro obj after before hrep happ
    have hne : (rest ++ [self]).isEmpty = false := by
      cases rest <;> rfl
    revert hrep
    simp only [replayDeltas]
    rcases hx : displayApplyDelta reg obj (diff_split_by_fields x.delta) with e | o2
    · intro hrep
      cases hrep
    · intro hrep
      simp only [List.cons_append, displayLoop, hx, List.append_eq, hne, Bool.false_eq_true,
        if_false]
      exact ih o2 after before hrep happ

/-- Claim C5: with a sane store containing revision `self` of a live entity,
`display_diff` replays the deltas of all Revisions numbered at least
`self.revision` newest-first from the current live state, captures the
working copy right before `self`'s own delta is applied (the after-`self`
state), finishes applying `self`'s delta (the before-`self` state), and
renders per tracked field the forward diff from before to after; with an
empty delta it returns the empty string at once. -/
theorem c5_display_diff (reg : ModelDef) (w : World) (self : Revision) (eLive : Entity)
    (hs : storeOk w.revisions)
    (he : findEntity w self = some eLive)
    (hmem : self ∈ get_for_object w.revisions self.content_type self.object_id)
    (hk : ∀ r ∈ get_for_object w.revisions self.content_type self.object_id,
      self.revision ≤ r.revision → keysOk r.delta = true) :
    (self.delta = [] → Revision.display_diff reg w self = Except.ok "") ∧
    (self.delta ≠ [] →
      ∃ after before,
        replayDeltas reg eLive ((get_for_object w.revisions self.content_type
          self.object_id).filter (fun r => self.revision < r.revision)).reverse =
            Except.ok after ∧
        displayApplyDelta reg after (diff_split_by_fields self.delta) =
          Except.ok before ∧
        Revision.display_diff reg w self =
          Except.ok (renderFields reg.fieldNames before after)) := by
  constructor
  · intro hd
    unfold Revision.display_diff
    rw [he]
    dsimp only
    rw [if_pos (by rw [hd]; rfl)]
  · intro hd
    have hgt : ∀ r ∈ (get_for_object w.revisions self.content_type
        self.object_id).filter (fun r => self.revision < r.revision), keysOk r.delta = true := by
      intro r hr
      rcases List.mem_filter.mp hr with ⟨hr1, hr2⟩
      exact hk r hr1 (Nat.le_of_lt (by simpa using hr2))
    rcases replayDeltas_ok reg ((get_for_object w.revisions self.content_type
        self.object_id).filter (fun r => self.revision < r.revision)).reverse eLive
        (fun r hr => hgt r (List.mem_reverse.mp hr)) with ⟨after, hafter⟩
    rcases displayApplyDelta_ok reg (diff_split_by_fields self.delta) after
        (hk self hmem (Nat.le_refl _)) with ⟨before, hbefore⟩
    refine ⟨after, before, hafter, hbefore, ?_⟩
    unfold Revision.display_diff
    rw [he]
    dsimp only
    rw [if_neg (by simp only [List.isEmpty_iff]; exact hd)]
    have hsel : selectGteDesc w.revisions self.content_type self.object_id self.revision =
        ((get_for_object w.revisions self.content_type self.object_id).filter
          (fun r => self.revision < r.revision)).reverse ++ [self] := by
      unfold selectGteDesc
      rw [filter_ge_split self _ (linesAscending_objRows w.revisions hs.2 _ _) hmem,
          List.reverse_cons]
    rw [hsel, displayLoop_capture reg self _ eLive after before hafter hbefore]

/-! Helper lemmas for the revert path (claim C4). -/

theorem pairwise_unique_of_mem {R : Revision → Revision → Prop} :
    ∀ (l : List Revision), l.Pairwise R → ∀ a ∈ l, ∀ b ∈ l, ¬ R a b → ¬ R b a → a = b := by
  intro l
  induction l with
  | nil =>
    intro _ a ha
    cases ha
  | cons x t ih =>
    intro hp a ha b hb hab hba
    rcases List.pairwise_cons.mp hp with ⟨hx, ht⟩
    rcases List.mem_cons.mp ha with rfl | hat
    · rcases List.mem_cons.mp hb with rfl | hbt
      · rfl
      · exact absurd (hx b hbt) hab
    · rcases List.mem_cons.mp hb with rfl | hbt
      · exact absurd (hx a hat) hba
      · exact ih ht a hat b hbt hab hba

theorem idsFromB_mem_ge :
    ∀ (l : Store) (k : Nat), idsFromB k l = true → ∀ r ∈ l, ∃ j, r.id = some j ∧ k ≤ j := by
  intro l
  induction l with
  | nil =>
    intro k _ r hr
    cases hr
  | cons a t ih =>
    intro k h r hr
    rw [idsFromB, Bool.and_eq_true, beq_iff_eq] at h
    rcases List.mem_cons.mp hr with rfl | hrt
    · exact ⟨k, h.1, Nat.le_refl k⟩
    · rcases ih (k + 1) h.2 r hrt with ⟨j, hj, hle⟩
      exact ⟨j, hj, by omega⟩

theorem idsFromB_pairwise :
    ∀ (l : Store) (k : Nat), idsFromB k l = true →
      l.Pairwise (fun a b => a.id ≠ b.id) := by
  intro l
  induction l with
  | nil =>
    intro _ _
    exact List.Pairwise.nil
  | cons r t ih =>
    intro k h
    rw [idsFromB, Bool.and_eq_true, beq_iff_eq] at h
    refine List.Pairwise.cons ?_ (ih (k + 1) h.2)
    intro b hb
    rcases idsFromB_mem_ge t (k + 1) h.2 b hb with ⟨j, hj, hle⟩
    rw [h.1, hj]
    intro hcontra
    injection hcontra with hkj
    omega

theorem ids_unique (s : Store) (hids : idsFromB 0 s = true) :
    ∀ a ∈ s, ∀ b ∈ s, a.id = b.id → a = b := by
  intro a ha b hb hab
  exact pairwise_unique_of_mem s (idsFromB_pairwise s 0 hids) a ha b hb
    (fun h => h hab) (fun h => h hab.symm)

theorem keys_unique (s : Store) (hs : linesAscending s) :
    ∀ a ∈ s, ∀ b ∈ s, a.object_id = b.object_id → a.content_type = b.content_type →
      a.revision = b.revision → a = b := by
  intro a ha b hb hoid hct hrev
  have hpa : a ∈ get_for_object s a.content_type a.object_id :=
    (mem_get_for_object _ _ _ _).mpr ⟨ha, rfl, rfl⟩
  have hpb : b ∈ get_for_object s a.content_type a.object_id :=
    (mem_get_for_object _ _ _ _).mpr ⟨hb, hct.symm, hoid.symm⟩
  exact pairwise_unique_of_mem _ (linesAscending_objRows s hs a.content_type a.object_id)
    a hpa b hpb (by omega) (by omega)

theorem linesAscending_map (s : Store) (g : Revision → Revision)
    (hct : ∀ x, (g x).content_type = x.content_type)
    (hoid : ∀ x, (g x).object_id = x.object_id)
    (hrev : ∀ x, (g x).revision = x.revision)
    (hs : linesAscending s) : linesAscending (s.map g) := by
  intro q hq
  rcases List.mem_map.mp hq with ⟨q0, hq0, rfl⟩
  rw [hct, hoid, get_for_object_map g hct hoid, List.map_map]
  have hmc : ((get_for_object s q0.content_type q0.object_id).map ((·.revision) ∘ g)) =
      (get_for_object s q0.content_type q0.object_id).map (·.revision) :=
    List.map_congr_left (fun x _ => hrev x)
  rw [hmc]
  exact hs q0 hq0

theorem idsFromB_map (g : Revision → Revision) (hgid : ∀ x, (g x).id = x.id) :
    ∀ (l : Store) (k : Nat), idsFromB k (l.map g) = idsFromB k l := by
  intro l
  induction l with
  | nil =>
    intro _
    rfl
  | cons a t ih =>
    intro k
    simp only [List.map_cons, idsFromB, hgid, ih]

theorem insertRevDesc_all_gt (r : Revision) :
    ∀ (l : List Revision), (∀ x ∈ l, ¬ (x.revision ≤ r.revision)) →
      insertRevDesc r l = l ++ [r] := by
  intro l
  induction l with
  | nil =>
    intro _
    rfl
  | cons a t ih =>
    intro h
    rw [insertRevDesc, if_neg (h a (List.mem_cons_self a t)), ih
      (fun x hx => h x (List.mem_cons_of_mem a hx))]
    rfl

theorem sortRevDesc_of_ascending :
    ∀ (l : List Revision), l.Pairwise (fun a b => a.revision < b.revision) →
      sortRevDesc l = l.reverse := by
  intro l
  induction l with
  | nil =>
    intro _
    rfl
  | cons a t ih =>
    intro hp
    rcases List.pairwise_cons.mp hp with ⟨ha, ht⟩
    rw [sortRevDesc, ih ht, insertRevDesc_all_gt a t.reverse
      (fun x hx => by have := ha x (List.mem_reverse.mp hx); omega), List.reverse_cons]

theorem save_update_spec (s : Store) (cs : Revision) (i : Nat)
    (hid : cs.id = some i) (hmem : cs ∈ s) (hasc : linesAscending s) :
    Revision.save s { cs with reverted := true } =
      Except.ok (s.map (fun q => if q.id == cs.id then markRow cs else q), markRow cs) := by
  have hid0 : ({ cs with reverted := true } : Revision).id = some i := hid
  have hnum : numberedForSave s { cs with reverted := true } = markRow cs := by
    rw [numberedForSave_of_update s _ i hid0]
    rfl
  have hconf : conflictsWith s (numberedForSave s { cs with reverted := true }) = false := by
    rw [hnum]
    unfold conflictsWith
    rw [List.any_eq_false]
    intro q hq
    simp only [Bool.and_eq_true, bne_iff_ne, beq_iff_eq, not_and]
    intro h1 h4
    rcases h1 with ⟨⟨hne, hoid⟩, hct⟩
    have hqcs : q = cs := keys_unique s hasc q hq cs hmem hoid hct h4
    refine hne ?_
    rw [hqcs]
    rfl
  rw [save_first_attempt_ok s _ hconf, hnum]
  have hmid : (markRow cs).id = some i := hid
  unfold dbWrite writtenRow
  rw [hmid]
  dsimp only
  rw [← hid]
  rfl

theorem processChangesets_spec (reg : ModelDef) :
    ∀ (l : List Revision) (s : Store) (obj : Entity),
      (∀ r ∈ l, r ∈ s) →
      l.Pairwise (fun a b => a.id ≠ b.id) →
      (∀ r ∈ l, keysOk r.delta = true) →
      (∀ r ∈ l, ∃ i, r.id = some i) →
      idsFromB 0 s = true →
      linesAscending s →
      ∃ obj2, applyDeltas reg obj l = Except.ok obj2 ∧
        processChangesets reg s obj l =
          (s.map (fun q => if l.any (fun c => c.id == q.id) then markRow q else q),
           Except.ok obj2) := by
  intro l
  induction l with
  | nil =>
    intro s obj _ _ _ _ _ _
    refine ⟨obj, rfl, ?_⟩
    simp only [processChangesets, List.any_nil, Bool.false_eq_true, if_false]
    rw [show (s.map fun q => q) = s from List.map_id' s]
  | cons cs rest ih =>
    intro s obj hsub hpw hkeys hsome hids hasc
    rcases hsome cs (List.mem_cons_self cs rest) with ⟨i, hid⟩
    have hmem : cs ∈ s := hsub cs (List.mem_cons_self cs rest)
    have hhead : ∀ b ∈ rest, cs.id ≠ b.id := (List.pairwise_cons.mp hpw).1
    rcases applyDelta_ok reg (diff_split_by_fields cs.delta) obj
      (hkeys cs (List.mem_cons_self cs rest)) with ⟨o2, ho2⟩
    have hsv := save_update_spec s cs i hid hmem hasc
    have hswap : (s.map fun q => if q.id == cs.id then markRow cs else q) =
        s.map (fun q => if q.id == cs.id then markRow q else q) := by
      apply List.map_congr_left
      intro x hx
      by_cases hxid : (x.id == cs.id) = true
      · rw [if_pos hxid, if_pos hxid, ids_unique s hids x hx cs hmem (beq_iff_eq.mp hxid)]
      · rw [Bool.not_eq_true] at hxid
        rw [if_neg (by rw [hxid]; exact Bool.false_ne_true),
            if_neg (by rw [hxid]; exact Bool.false_ne_true)]
    have hg1pid : ∀ x, ((fun q => if q.id == cs.id then markRow q else q) x).id = x.id := by
      intro x
      dsimp only
      split <;> rfl
    have hg1pct : ∀ x, ((fun q => if q.id == cs.id then markRow q else q) x).content_type =
        x.content_type := by
      intro x
      dsimp only
      split <;> rfl
    have hg1poid : ∀ x, ((fun q => if q.id == cs.id then markRow q else q) x).object_id =
        x.object_id := by
      intro x
      dsimp only
      split <;> rfl
    have hg1prev : ∀ x, ((fun q => if q.id == cs.id then markRow q else q) x).revision =
        x.revision := by
      intro x
      dsimp only
      split <;> rfl
    have hids2 : idsFromB 0 (s.map (fun q => if q.id == cs.id then markRow q else q)) = true := by
      rw [idsFromB_map _ hg1pid]
      exact hids
    have hasc2 : linesAscending (s.map (fun q => if q.id == cs.id then markRow q else q)) :=
      linesAscending_map s _ hg1pct hg1poid hg1prev hasc
    have hsub2 : ∀ r ∈ rest, r ∈ s.map (fun q => if q.id == cs.id then markRow q else q) := by
      intro r hr
      have hrs : r ∈ s := hsub r (List.mem_cons_of_mem cs hr)
      have hrne : (r.id == cs.id) = false :=
        beq_eq_false_iff_ne.mpr (fun h => hhead r hr h.symm)
      have hfix : (fun q => if q.id == cs.id then markRow q else q) r = r := by
        dsimp only
        rw [if_neg (by rw [hrne]; exact Bool.false_ne_true)]
      rw [← hfix]
      exact List.mem_map_of_mem _ hrs
    rcases ih (s.map (fun q => if q.id == cs.id then markRow q else q)) o2 hsub2
      (List.pairwise_cons.mp hpw).2
      (fun r hr => hkeys r (List.mem_cons_of_mem cs hr))
      (fun r hr => hsome r (List.mem_cons_of_mem cs hr)) hids2 hasc2 with ⟨obj3, hap3, hpc3⟩
    refine ⟨obj3, ?_, ?_⟩
    · simp only [applyDeltas, ho2]
      exact hap3
    · simp only [processChangesets, ho2, hsv]
      rw [hswap, hpc3, List.map_map]
      refine congrArg (fun z => (z, Except.ok obj3)) ?_
      apply List.map_congr_left
      intro q hq
      show (fun q2 => if rest.any (fun c => c.id == q2.id) then markRow q2 else q2)
          (if q.id == cs.id then markRow q else q) =
        (if (cs :: rest).any (fun c => c.id == q.id) then markRow q else q)
      by_cases hq1 : (q.id == cs.id) = true
      · have hq1e : q.id = cs.id := beq_iff_eq.mp hq1
        rw [if_pos hq1]
        have hrest : rest.any (fun c => c.id == q.id) = false := by
          rw [List.any_eq_false]
          intro c hc
          simp only [beq_iff_eq]
          intro hcq
          exact hhead c hc (by rw [hcq, hq1e])
        have lhs : (fun q2 => if rest.any (fun c => c.id == q2.id) then markRow q2 else q2)
            (markRow q) = markRow q := by
          show (if rest.any (fun c => c.id == q.id) then markRow (markRow q) else markRow q) =
            markRow q
          rw [hrest]
          exact if_neg Bool.false_ne_true
        rw [lhs, List.any_cons]
        rw [show (cs.id == q.id) = true from beq_iff_eq.mpr hq1e.symm, Bool.true_or]
        exact (if_pos rfl).symm
      · rw [Bool.not_eq_true] at hq1
        rw [if_neg (by rw [hq1]; exact Bool.false_ne_true)]
        have hcsq : (cs.id == q.id) = false :=
          beq_eq_false_iff_ne.mpr (fun h => (beq_eq_false_iff_ne.mp hq1) h.symm)
        show (if rest.any (fun c => c.id == q.id) then markRow q else q) = _
        rw [List.any_cons, hcsq, Bool.false_or]

theorem mem_selectGtDesc (s : Store) (ct oid : String) (n : Nat) (r : Revision) :
    r ∈ selectGtDesc s ct oid n ↔
      r ∈ s ∧ r.content_type = ct ∧ r.object_id = oid ∧ n < r.revision := by
  unfold selectGtDesc
  rw [mem_sortRevDesc, List.mem_filter, mem_get_for_object]
  simp [and_assoc]

theorem consumed_any_eq (s : Store) (self : Revision)
    (hids : idsFromB 0 s = true) (q : Revision) (hq : q ∈ s) :
    (selectGtDesc s self.content_type self.object_id self.revision).any
        (fun c => c.id == q.id) =
      (q.content_type == self.content_type && q.object_id == self.object_id &&
        decide (self.revision < q.revision)) := by
  by_cases hmatch : q ∈ selectGtDesc s self.content_type self.object_id self.revision
  · have h1 : (selectGtDesc s self.content_type self.object_id self.revision).any
        (fun c => c.id == q.id) = true :=
      List.any_eq_true.mpr ⟨q, hmatch, beq_self_eq_true q.id⟩
    rcases (mem_selectGtDesc s _ _ _ q).mp hmatch with ⟨_, hct, hoid, hlt⟩
    rw [h1, show (q.content_type == self.content_type) = true from beq_iff_eq.mpr hct,
        show (q.object_id == self.object_id) = true from beq_iff_eq.mpr hoid,
        decide_eq_true hlt]
    rfl
  · have h1 : (selectGtDesc s self.content_type self.object_id self.revision).any
        (fun c => c.id == q.id) = false := by
      rw [List.any_eq_false]
      intro c hc
      simp only [beq_iff_eq]
      intro hcq
      have hcs : c ∈ s := ((mem_selectGtDesc s _ _ _ c).mp hc).1
      exact hmatch (by rw [← ids_unique s hids c hcs q hq hcq]; exact hc)
    rw [h1]
    cases hrhs : (q.content_type == self.content_type && q.object_id == self.object_id &&
        decide (self.revision < q.revision)) with
    | false => rfl
    | true =>
      exfalso
      rcases Bool.and_eq_true_iff.mp hrhs with ⟨h2, h3⟩
      rcases Bool.and_eq_true_iff.mp h2 with ⟨hct, hoid⟩
      exact hmatch ((mem_selectGtDesc s _ _ _ q).mpr
        ⟨hq, beq_iff_eq.mp hct, beq_iff_eq.mp hoid, of_decide_eq_true h3⟩)

/-- Claim C4: with a sane store and the live entity present, Revert-to applies
exactly the deltas of the Revisions of the same history line with revision
number strictly greater than `self.revision`, in newest-to-oldest order, to
the live entity; every consumed Revision is persisted with `reverted = true`
(rows at or below `self.revision`, and other history lines, are untouched),
the replayed entity is saved, and one new forward Revision is appended. -/
theorem c4_revert_scope (reg : ModelDef) (w : World) (self : Revision)
    (ip : Option String) (ed : Option User) (req : Option Request) (eLive : Entity)
    (hs : storeOk w.revisions)
    (he : findEntity w self = some eLive)
    (hk : ∀ r ∈ get_for_object w.revisions self.content_type self.object_id,
      self.revision < r.revision → keysOk r.delta = true) :
    selectGtDesc w.revisions self.content_type self.object_id self.revision =
      ((get_for_object w.revisions self.content_type self.object_id).filter
        (fun r => self.revision < r.revision)).reverse ∧
    ∃ obj2 newRev,
      applyDeltas reg eLive (selectGtDesc w.revisions self.content_type
        self.object_id self.revision) = Except.ok obj2 ∧
      Revision.reapply reg w self ip ed req =
        (⟨upsertEntity w.entities obj2,
          (w.revisions.map (markReverted self.revision self.content_type self.object_id))
            ++ [newRev]⟩, Except.ok ()) := by
  have hsel : selectGtDesc w.revisions self.content_type self.object_id self.revision =
      ((get_for_object w.revisions self.content_type self.object_id).filter
        (fun r => self.revision < r.revision)).reverse := by
    unfold selectGtDesc
    rw [sortRevDesc_of_ascending _
      ((linesAscending_objRows w.revisions hs.2 self.content_type self.object_id).filter _)]
  refine ⟨hsel, ?_⟩
  have hsubC : ∀ r ∈ selectGtDesc w.revisions self.content_type self.object_id self.revision,
      r ∈ w.revisions := fun r hr => ((mem_selectGtDesc _ _ _ _ r).mp hr).1
  have hpwC : (selectGtDesc w.revisions self.content_type self.object_id
      self.revision).Pairwise (fun a b => a.id ≠ b.id) := by
    rw [hsel]
    rw [List.pairwise_reverse]
    have hpws : w.revisions.Pairwise (fun a b => a.id ≠ b.id) :=
      idsFromB_pairwise w.revisions 0 hs.1
    have hpwf : ((get_for_object w.revisions self.content_type self.object_id).filter
        (fun r => self.revision < r.revision)).Pairwise (fun a b => a.id ≠ b.id) :=
      (hpws.filter _).filter _
    exact hpwf.imp (fun h => Ne.symm h)
  have hkC : ∀ r ∈ selectGtDesc w.revisions self.content_type self.object_id self.revision,
      keysOk r.delta = true := by
    intro r hr
    rcases (mem_selectGtDesc _ _ _ _ r).mp hr with ⟨hrs, hct, hoid, hlt⟩
    exact hk r ((mem_get_for_object _ _ _ r).mpr ⟨hrs, hct, hoid⟩) hlt
  have hsomeC : ∀ r ∈ selectGtDesc w.revisions self.content_type self.object_id self.revision,
      ∃ i, r.id = some i := by
    intro r hr
    rcases idsFromB_mem_ge w.revisions 0 hs.1 r (hsubC r hr) with ⟨j, hj, _⟩
    exact ⟨j, hj⟩
  rcases processChangesets_spec reg
    (selectGtDesc w.revisions self.content_type self.object_id self.revision)
    w.revisions eLive hsubC hpwC hkC hsomeC hs.1 hs.2 with ⟨obj2, hap, hpc⟩
  have hmarked : (w.revisions.map (fun q =>
      if (selectGtDesc w.revisions self.content_type self.object_id self.revision).any
        (fun c => c.id == q.id) then markRow q else q)) =
      w.revisions.map (markReverted self.revision self.content_type self.object_id) := by
    apply List.map_congr_left
    intro q hq
    rw [consumed_any_eq w.revisions self hs.1 q hq]
    rfl
  rw [hmarked] at hpc
  have hascM : linesAscending (w.revisions.map
      (markReverted self.revision self.content_type self.object_id)) := by
    refine linesAscending_map w.revisions _ ?_ ?_ ?_ hs.2
    · intro x
      unfold markReverted
      split <;> rfl
    · intro x
      unfold markReverted
      split <;> rfl
    · intro x
      unfold markReverted
      split <;> rfl
  refine ⟨obj2, insertedRow
    (w.revisions.map (markReverted self.revision self.content_type self.object_id))
    (revisionFromInfo obj2 (pre_save reg w.entities req
      (some { comment := some ("Reverted to revision #" ++ toString self.revision),
              editor_ip := some ip, editor := some ed }) obj2)), hap, ?_⟩
  unfold Revision.reapply
  rw [he]
  dsimp only
  rw [hpc]
  dsimp only
  rw [trackedSave_spec reg
    { w with revisions := w.revisions.map (markReverted self.revision self.content_type self.object_id) }
    req
    (some { comment := some ("Reverted to revision #" ++ toString self.revision),
            editor_ip := some ip, editor := some ed }) obj2 hascM]

/-- Witness for C5 at fixture revision 3: the display data is produced from
the captured after-state (the live page) and the before-state (revision 3's
delta applied to it). -/
theorem c5_display_diff_witness :
    (fxR3.delta = [] → Revision.display_diff reg0 fxW3 fxR3 = Except.ok "") ∧
    (fxR3.delta ≠ [] →
      ∃ after before,
        replayDeltas reg0 pageC ((get_for_object fxW3.revisions fxR3.content_type
          fxR3.object_id).filter (fun r => fxR3.revision < r.revision)).reverse =
            Except.ok after ∧
        displayApplyDelta reg0 after (diff_split_by_fields fxR3.delta) =
          Except.ok before ∧
        Revision.display_diff reg0 fxW3 fxR3 =
          Except.ok (renderFields reg0.fieldNames before after)) :=
  c5_display_diff reg0 fxW3 fxR3 pageC (by decide) (by decide) (by decide) (by decide)

/-- Witness for C4 at the fixture revert to revision 2: exactly revision 3 is
consumed and flipped, and the forward Revision is appended. -/
theorem c4_revert_scope_witness :
    selectGtDesc fxW3.revisions fxR2.content_type fxR2.object_id fxR2.revision =
      ((get_for_object fxW3.revisions fxR2.content_type fxR2.object_id).filter
        (fun r => fxR2.revision < r.revision)).reverse ∧
    ∃ obj2 newRev,
      applyDeltas reg0 pageC (selectGtDesc fxW3.revisions fxR2.content_type
        fxR2.object_id fxR2.revision) = Except.ok obj2 ∧
      Revision.reapply reg0 fxW3 fxR2 (some "1.2.3.4") (some ⟨some 7⟩) Option.none =
        (⟨upsertEntity fxW3.entities obj2,
          (fxW3.revisions.map (markReverted fxR2.revision fxR2.content_type fxR2.object_id))
            ++ [newRev]⟩, Except.ok ()) :=
  c4_revert_scope reg0 fxW3 fxR2 (some "1.2.3.4") (some ⟨some 7⟩) Option.none pageC
    (by decide) (by decide) (by decide)

end DjangoVersioning
